import Mathlib

/-!
# MegaRAID probe: extraction of virtual drives and matching against a block device

A shallow embedding of `cmd/ndm_daemonset/probe/megaraidprobe.go`.

* Values of type `interface{}` obtained from `encoding/json` are trees (`JSON`); the
  re-decoding of `convertPd` and `convertVd` follows `encoding/json`: map keys are written
  in sorted order, a key selects a struct field by exact or case-insensitive match, `null`
  leaves the target as it is, any other mismatch of types is an error.
* `fmt.Errorf` with a format and no operand follows `doPrintf` of the Go library.
* The external tool and the top-level `json.Unmarshal` are inputs (`Env`).
* A Go run-time panic is the `Except.error` case of a result; a returned Go
  `error` is an `Option GoError` next to the returned slice.
* The effects of `FillBlockDeviceDetails` (tool invocations, log lines, the write
  through the `*BlockDevice` pointer) are collected in an `Outcome`.
-/

set_option autoImplicit false

namespace MegaRaidProbe

/-! ## Data model -/

deriving instance DecidableEq for Except

/-- A value of Go type `interface{}` as produced by `encoding/json`: `nil`, `bool`,
`float64` (kept as the text of the number, which the probe never inspects), `string`,
`[]interface{}` and `map[string]interface{}` (its entries). -/
inductive JSON where
  | null
  | bool (b : Bool)
  | number (text : String)
  | str (s : String)
  | arr (elems : List JSON)
  | obj (fields : List (String × JSON))

/-- Go `error` values that occur in the probe. -/
inductive GoError where
  /-- the error built by `fmt.Errorf`; `s` is its message -/
  | errorString (s : String)
  /-- the error `*json.UnmarshalTypeError`: JSON value kind, Go type, struct and field -/
  | unmarshalTypeError (value type struct field : String)
  /-- an error of the tool execution or of the top-level JSON decoding -/
  | external (msg : String)
  deriving DecidableEq, Repr

/-- The method `Error()` of a Go error. -/
def GoError.Error : GoError → String
  | .errorString s => s
  | .unmarshalTypeError value type struct field =>
    if struct != "" || field != "" then
      "json: cannot unmarshal " ++ value ++ " into Go struct field " ++ struct ++ "." ++ field
        ++ " of type " ++ type
    else
      "json: cannot unmarshal " ++ value ++ " into Go value of type " ++ type
  | .external msg => msg

/-- Record `VdInfo` of the source. -/
structure VdInfo where
  WWN : String
  DriverType : String
  deriving DecidableEq, Repr

/-- Record `CommandStatus` of the source. -/
structure CommandStatus where
  Controller : Int
  Status : String
  Description : String

/-- Record `MegaCtl` of the source; `ResponseStatus` is the Go map
`map[string]interface{}`, given by its entries (in a Go map the keys are pairwise
distinct; a lookup takes the first entry of a key). -/
structure MegaCtl where
  CommandStatus : CommandStatus
  ResponseStatus : List (String × JSON)

/-- Record `MegaOutput` of the source. -/
structure MegaOutput where
  Controllers : List MegaCtl

/-- Record `PdObj` of the source. -/
structure PdObj where
  Med : String
  deriving DecidableEq, Repr

/-- Record `VdObj` of the source. -/
structure VdObj where
  SCSI : String
  deriving DecidableEq, Repr

/-- Modelled from the spec: the type `blockdevice.DevLink` is declared outside the source;
a link record has a kind tag and an ordered sequence of link paths. -/
structure DevLink where
  Kind : String
  Links : List String
  deriving DecidableEq, Repr

/-- Modelled from the spec: the type `blockdevice.Identifier` is declared outside the
source; the probe reads its `DevPath` only. -/
structure Identifier where
  DevPath : String
  deriving DecidableEq, Repr

/-- Modelled from the spec: the type `blockdevice.DeviceAttributes` is declared outside the
source; `DriveType` is the attribute the probe writes, `Model` stands for the
attributes it never touches. -/
structure DeviceAttributes where
  DriveType : String
  Model : String
  deriving DecidableEq, Repr

/-- Modelled from the spec: the type `blockdevice.BlockDevice` is declared outside the
source; the fields the probe reads or writes. -/
structure BlockDevice where
  Identifier : Identifier
  DeviceAttributes : DeviceAttributes
  DevLinks : List DevLink
  deriving DecidableEq, Repr

/-! ## Constants -/

def megaCliPath : String := "/opt/MegaRAID/storcli/storcli64"

/-- Local `maxNum` of `getVdInfos`. -/
def maxNum : Nat := 100

/-- Local `arg` of `getVdInfos`. -/
def arg : List String := ["/call/vall", "show", "all", "J"]

/-! ## `fmt`: the formatting the probe uses -/

/-- The key `fmt.Sprintf("VD%d Properties", i)`. -/
def vdKey (i : Nat) : String := "VD" ++ toString i ++ " Properties"

/-- The key `fmt.Sprintf("PDs for VD %d", i)`. -/
def pdKey (i : Nat) : String := "PDs for VD " ++ toString i

/-- The identifier `fmt.Sprintf("wwn-0x%s", scsi)`. -/
def wwnOf (scsi : String) : String := "wwn-0x" ++ scsi

/-- Function `tooLarge` of `fmt/print.go`. -/
def tooLarge (x : Nat) : Bool := decide (x > 1000000)

/-- Loop of `parsenum` of `fmt/print.go` over the characters of `s[newi:end]`: the
number read, whether a digit was read, and what is left of the segment. On overflow the
position jumps to `end`, so nothing is left. -/
def parsenumLoop : List Char → Nat → Bool → Nat × Bool × List Char
  | [], num, isnum => (num, isnum, [])
  | c :: cs, num, isnum =>
    if '0' ≤ c ∧ c ≤ '9' then
      if tooLarge num then (0, false, [])
      else parsenumLoop cs (num * 10 + (c.toNat - '0'.toNat)) true
    else (num, isnum, c :: cs)

/-- Function `parsenum` of `fmt/print.go` on the segment `s[start:end]`. -/
def parsenum (seg : List Char) : Nat × Bool × List Char :=
  match seg with
  | [] => (0, false, [])
  | _ => parsenumLoop seg 0 false

/-- Length in bytes of the UTF-8 encoding of a character sequence. -/
def byteLen (cs : List Char) : Nat := (cs.map Char.utf8Size).sum

/-- Function `parseArgNumber` of `fmt/print.go` on `format[i:]` (which starts with `[`):
whether a well-formed index `[n]` was read, and the format after the `wid` bytes that
are skipped. The index itself is irrelevant when there is no operand. -/
def parseArgNumber (cs : List Char) : Bool × List Char :=
  if byteLen cs < 3 then (false, cs.drop 1)
  else
    let body := cs.drop 1
    if body.contains ']' then
      let seg := body.takeWhile (fun c => c != ']')
      let after := (body.dropWhile (fun c => c != ']')).drop 1
      let r := parsenum seg
      if !r.2.1 || !r.2.2.isEmpty then (false, after) else (true, after)
    else (false, cs.drop 1)

/-- Method `argNumber` of `fmt/print.go` when there is no operand (`numArgs = 0`):
the new `goodArgNum`, the rest of the format, and `found`. -/
def argNumber (goodArgNum : Bool) (cs : List Char) : Bool × List Char × Bool :=
  match cs with
  | '[' :: _ =>
    let r := parseArgNumber cs
    (false, r.2, r.1)
  | _ => (goodArgNum, cs, false)

/-- Flags of a verb: the characters the `simpleFormat` loop of `doPrintf` skips. -/
def isFlag (c : Char) : Bool := c == '#' || c == '0' || c == '+' || c == '-' || c == ' '

/-- The width of a verb in `doPrintf` when there is no operand; `cs` is the format at the
width. Returns what is written, the new `goodArgNum`, the rest of the format and the new
`afterIndex`. A `*` finds no operand to take the width from. -/
def verbWidth (goodArgNum afterIndex : Bool) (cs : List Char) :
    List Char × Bool × List Char × Bool :=
  match cs with
  | '*' :: rest => ("%!(BADWIDTH)".toList, goodArgNum, rest, false)
  | _ =>
    let r := parsenum cs
    ([], if afterIndex && r.2.1 then false else goodArgNum, r.2.2, afterIndex)

/-- The precision of a verb in `doPrintf` when there is no operand; same results as
`verbWidth`. A `.` starts a precision only when a character follows it
(`i+1 < end && format[i] == '.'`); a `.` that ends the format is left to be the verb. -/
def verbPrecision (goodArgNum afterIndex : Bool) (cs : List Char) :
    List Char × Bool × List Char × Bool :=
  match cs with
  | '.' :: c :: rest =>
    let a := argNumber (if afterIndex then false else goodArgNum) (c :: rest)
    match a.2.1 with
    | '*' :: rest2 => ("%!(BADPREC)".toList, a.1, rest2, false)
    | cs2 => ([], a.1, (parsenum cs2).2.2, a.2.2)
  | _ => ([], goodArgNum, cs, afterIndex)

/-- The argument index in front of the verb (`if !afterIndex` in `doPrintf`): the new
`goodArgNum` and the rest of the format. -/
def verbIndex (goodArgNum afterIndex : Bool) (cs : List Char) : Bool × List Char :=
  if !afterIndex then
    let a := argNumber goodArgNum cs
    (a.1, a.2.1)
  else (goodArgNum, cs)

/-- The verb itself in `doPrintf` when there is no operand: `out` is what the width and
the precision wrote. Returns what is written, the rest of the format, and whether the
format loop goes on (it ends at a missing verb). -/
def verbEnd (out : List Char) (goodArgNum : Bool) (cs : List Char) :
    List Char × List Char × Bool :=
  match cs with
  | [] => (out ++ "%!(NOVERB)".toList, [], false)
  | verb :: rest =>
    if verb == '%' then (out ++ ['%'], rest, true)
    else if !goodArgNum then (out ++ "%!".toList ++ [verb] ++ "(BADINDEX)".toList, rest, true)
    else (out ++ "%!".toList ++ [verb] ++ "(MISSING)".toList, rest, true)

/-- One verb of `doPrintf` (`fmt/print.go`) when there is no operand; `cs` is the format
after the `%`: flags, argument index, width, precision, argument index, verb. -/
def doVerb (cs : List Char) : List Char × List Char × Bool :=
  let a := argNumber true (cs.dropWhile isFlag)
  let w := verbWidth a.1 a.2.2 a.2.1
  let p := verbPrecision w.2.1 w.2.2.2 w.2.2.1
  let x := verbIndex p.2.1 p.2.2.2 p.2.2.1
  verbEnd (w.1 ++ p.1) x.1 x.2

/-- The format loop of `doPrintf` when there is no operand. Each round consumes at least
one character of the format, so `cs.length` rounds are enough. -/
def doPrintfLoop : Nat → List Char → List Char → List Char
  | 0, _, out => out
  | _ + 1, [], out => out
  | n + 1, c :: cs, out =>
    if c != '%' then doPrintfLoop n cs (out ++ [c])
    else
      let r := doVerb cs
      if r.2.2 then doPrintfLoop n r.2.1 (out ++ r.1) else out ++ r.1

/-- The message of `fmt.Errorf(format)`, called with a format and no operand. -/
def Sprintf0 (format : String) : String :=
  String.mk (doPrintfLoop format.length format.toList [])

/-- The call `fmt.Errorf(format)` with no operand. -/
def Errorf (format : String) : GoError := GoError.errorString (Sprintf0 format)

/-! ## `encoding/json`: decoding a value into the typed records -/

/-- The kind of a JSON value as `UnmarshalTypeError.Value` names it. -/
def jsonKind : JSON → String
  | .null => "null"
  | .bool _ => "bool"
  | .number _ => "number"
  | .str _ => "string"
  | .arr _ => "array"
  | .obj _ => "object"

/-- Case folding of `encoding/json` for one character, as far as it can meet the ASCII
field names of the probe: ASCII letters fold to upper case, and the two non-ASCII
characters with an ASCII letter in their fold orbit (U+017F, U+212A) fold to it. -/
def foldRune (c : Char) : Char :=
  if c = Char.ofNat 0x17F then 'S' else if c = Char.ofNat 0x212A then 'K' else c.toUpper

/-- Case folding of a key. -/
def foldName (s : String) : String := String.mk (s.toList.map foldRune)

/-- Whether the object key `key` selects the struct field tagged `name`:
`encoding/json` takes an exact match, and otherwise a case-insensitive one. -/
def keyMatches (name key : String) : Bool := key == name || foldName key == foldName name

/-- Order of the keys in the output of `json.Marshal` of a map: sorted by key, that is
lexicographically by character (the order of the UTF-8 bytes). -/
def keyLE (a b : String × JSON) : Prop := a.1.toList < b.1.toList ∨ a.1 = b.1

instance : DecidableRel keyLE :=
  fun a b => inferInstanceAs (Decidable (a.1.toList < b.1.toList ∨ a.1 = b.1))

/-- The entries of a map in the order `json.Marshal` writes them. -/
def sortKeys (fields : List (String × JSON)) : List (String × JSON) :=
  List.insertionSort keyLE fields

/-- Decoding of the entries of a JSON object, in the order given, into a struct
`struct` whose only field is a string tagged `name`; `cur` is the field so far. A string
is stored, `null` leaves the field as it is, any other value is an
`UnmarshalTypeError`. The decoder reports the earliest such error when it is done, and
its caller drops the decoded value on an error, so the first error ends the function here. -/
def unmarshalStringField (struct name : String) :
    List (String × JSON) → String → Except GoError String
  | [], cur => .ok cur
  | (k, v) :: rest, cur =>
    if keyMatches name k then
      match v with
      | .str s => unmarshalStringField struct name rest s
      | .null => unmarshalStringField struct name rest cur
      | v => .error (.unmarshalTypeError (jsonKind v) "string" struct name)
    else unmarshalStringField struct name rest cur

/-- The composition `json.Unmarshal(json.Marshal(data), &pd)` for one `PdObj`. -/
def unmarshalPdObj : JSON → Except GoError PdObj
  | .obj fields =>
    match unmarshalStringField "PdObj" "Med" (sortKeys fields) "" with
    | .ok med => .ok ⟨med⟩
    | .error err => .error err
  | .null => .ok ⟨""⟩
  | v => .error (.unmarshalTypeError (jsonKind v) "probe.PdObj" "" "")

/-- Decoding of the elements of a JSON array into `[]PdObj`. -/
def unmarshalPdObjs : List JSON → Except GoError (List PdObj)
  | [] => .ok []
  | e :: es =>
    match unmarshalPdObj e with
    | .error err => .error err
    | .ok pd =>
      match unmarshalPdObjs es with
      | .error err => .error err
      | .ok pds => .ok (pd :: pds)

/-- Method `convertPd`: `json.Marshal(data)` (which cannot fail on a value that came out
of `encoding/json`) followed by `json.Unmarshal(bytes, &pds)` with `pds []PdObj`. -/
def convertPd : JSON → Except GoError (List PdObj)
  | .arr elems => unmarshalPdObjs elems
  | .null => .ok []
  | data => .error (.unmarshalTypeError (jsonKind data) "[]probe.PdObj" "" "")

/-- Method `convertVd`: `json.Marshal(data)` followed by `json.Unmarshal(bytes, &vds)`
with `vds VdObj`. -/
def convertVd : JSON → Except GoError VdObj
  | .obj fields =>
    match unmarshalStringField "VdObj" "SCSI NAA Id" (sortKeys fields) "" with
    | .ok scsi => .ok ⟨scsi⟩
    | .error err => .error err
  | .null => .ok ⟨""⟩
  | data => .error (.unmarshalTypeError (jsonKind data) "probe.VdObj" "" "")

/-! ## The probe -/

/-- What the probe does to the outside: a run of an external command
(`exec.Command(name, arg...).Output()`) or a `klog` line (format and operands). -/
inductive Event where
  | exec (name : String) (arg : List String)
  | klogErrorf (format : String) (operands : List String)
  | klogInfof (format : String) (operands : List String)
  deriving DecidableEq, Repr

/-- The surroundings of `getVdInfos`: what running a command returns, and
`json.Unmarshal(buf, &output)` into a fresh `MegaOutput`. -/
structure Env where
  Output : String → List String → Except GoError String
  Unmarshal : String → Except GoError MegaOutput

/-- The message of the run-time panic of `pds[0]` on an empty slice. -/
def indexOutOfRange : String := "runtime error: index out of range [0] with length 0"

/-- How one round of the inner loop of `getVdInfos` ends: `break`, a `return` with an
error, a run-time panic, or the record appended to `vdInfos`. -/
inductive Step where
  | brk
  | ret (err : GoError)
  | panic (msg : String)
  | next (vdItem : VdInfo)
  deriving DecidableEq, Repr

/-- The body of the inner loop of `getVdInfos` at index `i`, for the map `rs` of one
controller. -/
def scanBody (rs : List (String × JSON)) (i : Nat) : Step :=
  match rs.lookup (vdKey i) with
  | none => .brk
  | some vdArray =>
    match rs.lookup (pdKey i) with
    | none => .brk
    | some pdArray =>
      match convertPd pdArray with
      | .error err => .ret err
      | .ok pds =>
        match convertVd vdArray with
        | .error err => .ret err
        | .ok vds =>
          match pds with
          | [] => .panic indexOutOfRange
          | pd :: _ => .next ⟨wwnOf vds.SCSI, pd.Med⟩

/-- The inner loop of `getVdInfos` (`for i := 0; i <= maxNum; i++`) over the indices still
to visit. The result is a panic (`Except.error`), or the slice `vdInfos` with `some err`
when the function returns from inside the loop, or with `none` when the loop ends by
`break` or by exhaustion. -/
def scanVds (rs : List (String × JSON)) :
    List Nat → List VdInfo → Except String (List VdInfo × Option GoError)
  | [], vdInfos => .ok (vdInfos, none)
  | i :: is, vdInfos =>
    match scanBody rs i with
    | .brk => .ok (vdInfos, none)
    | .ret err => .ok (vdInfos, some err)
    | .panic msg => .error msg
    | .next vdItem => scanVds rs is (vdInfos ++ [vdItem])

/-- The outer loop of `getVdInfos` (`for _, ctl := range output.Controllers`). -/
def scanControllers :
    List MegaCtl → List VdInfo → Except String (List VdInfo × Option GoError)
  | [], vdInfos => .ok (vdInfos, none)
  | ctl :: rest, vdInfos =>
    if ctl.CommandStatus.Status != "Success" then
      .ok (vdInfos, some (Errorf ctl.CommandStatus.Description))
    else
      match scanVds ctl.ResponseStatus (List.range (maxNum + 1)) vdInfos with
      | .error p => .error p
      | .ok (vdInfos, some err) => .ok (vdInfos, some err)
      | .ok (vdInfos, none) => scanControllers rest vdInfos

/-- Method `getVdInfos`: the events it causes, and its result: a panic, or the pair
`(vdInfos, err)` it returns. -/
def getVdInfos (env : Env) : List Event × Except String (List VdInfo × Option GoError) :=
  ([Event.exec megaCliPath arg],
    match env.Output megaCliPath arg with
    | .error err => .ok ([], some err)
    | .ok buf =>
      match env.Unmarshal buf with
      | .error err => .ok ([], some err)
      | .ok output => scanControllers output.Controllers [])

/-- Method `getByIds`; `BY_ID_LINK` is the constant `libudevwrapper.BY_ID_LINK`, declared
outside the source. -/
def getByIds (BY_ID_LINK : String) (blockDevice : BlockDevice) : List String :=
  go blockDevice.DevLinks
where
  go : List DevLink → List String
    | [] => []
    | item :: rest => if item.Kind == BY_ID_LINK then item.Links else go rest

/-- Function `path.Base` of the Go library. -/
def Base (path : String) : String :=
  if path == "" then "."
  else
    let stripped := (path.toList.reverse.dropWhile (fun c => c == '/')).reverse
    let last := (stripped.reverse.takeWhile (fun c => c != '/')).reverse
    if last.isEmpty then "/" else String.mk last

/-- What a call of `FillBlockDeviceDetails` leaves behind: the record behind the
pointer `blockDevice`, the events in order, and the panic that ended the call, if any. -/
structure Outcome where
  blockDevice : BlockDevice
  events : List Event
  panicked : Option String
  deriving DecidableEq, Repr

/-- The assignment `blockDevice.DeviceAttributes.DriveType = driveType`. -/
def setDriveType (blockDevice : BlockDevice) (driveType : String) : BlockDevice :=
  { blockDevice with
    DeviceAttributes := { blockDevice.DeviceAttributes with DriveType := driveType } }

/-- The record `blockDevice` with other link records. -/
def withDevLinks (blockDevice : BlockDevice) (links : List DevLink) : BlockDevice :=
  { blockDevice with DevLinks := links }

/-- The body of the inner matching loop for one `byId` of one `vdItem`. -/
def matchStep (vdItem : VdInfo) (st : BlockDevice × List Event) (byId : String) :
    BlockDevice × List Event :=
  if Base byId == vdItem.WWN then
    (setDriveType st.1 vdItem.DriverType,
      st.2 ++ [Event.klogInfof "set %s driver type %s"
        [st.1.Identifier.DevPath, vdItem.DriverType]])
  else st

/-- The two matching loops of `FillBlockDeviceDetails`. -/
def matchAll (vds : List VdInfo) (byIds : List String) (st : BlockDevice × List Event) :
    BlockDevice × List Event :=
  vds.foldl (fun st vdItem => byIds.foldl (matchStep vdItem) st) st

/-- Method `FillBlockDeviceDetails`. -/
def FillBlockDeviceDetails (BY_ID_LINK : String) (env : Env) (blockDevice : BlockDevice) :
    Outcome :=
  let byIds := getByIds BY_ID_LINK blockDevice
  if byIds.length == 0 then
    ⟨blockDevice, [Event.klogErrorf "%s byids not found" [blockDevice.Identifier.DevPath]], none⟩
  else
    let r := getVdInfos env
    match r.2 with
    | .error p => ⟨blockDevice, r.1, some p⟩
    | .ok (_, some err) =>
      ⟨blockDevice,
        r.1 ++ [Event.klogErrorf "%s err: %v" [blockDevice.Identifier.DevPath, err.Error]], none⟩
    | .ok (vds, none) =>
      let st := matchAll vds byIds (blockDevice, r.1)
      ⟨st.1, st.2, none⟩

/-! ## Predicates used in the statements -/

/-- The object with entries `fields` has the key `name` with the string `s`, and no
other entry whose key selects the struct field tagged `name` (no second spelling of
the key that differs in letter case only). -/
def HasStringField (name : String) (fields : List (String × JSON)) (s : String) : Prop :=
  (name, JSON.str s) ∈ fields ∧
    ∀ kv ∈ fields, keyMatches name kv.1 = true → kv = (name, JSON.str s)

/-- A well-formed value of `VD<i> Properties`: an object with the string `naa` under
`SCSI NAA Id`. -/
def WellFormedVd (v : JSON) (naa : String) : Prop :=
  ∃ fields, v = JSON.obj fields ∧ HasStringField "SCSI NAA Id" fields naa

/-- A well-formed physical-drive entry: an object with the string `med` under `Med`. -/
def WellFormedPd (e : JSON) (med : String) : Prop :=
  ∃ fields, e = JSON.obj fields ∧ HasStringField "Med" fields med

/-- A well-formed value of `PDs for VD <i>`: a non-empty array of well-formed entries, the
first of which has media type `med`. -/
def WellFormedPds (v : JSON) (med : String) : Prop :=
  ∃ e es, v = JSON.arr (e :: es) ∧ WellFormedPd e med ∧ ∀ x ∈ es, ∃ m, WellFormedPd x m

/-- Index `i` of the map `rs` is well formed: both keys are present, with well-formed
values that carry the NAA id `naa` and the media type `med` of the first drive. -/
def WellFormedAt (rs : List (String × JSON)) (i : Nat) (naa med : String) : Prop :=
  ∃ vdArray pdArray, rs.lookup (vdKey i) = some vdArray ∧ rs.lookup (pdKey i) = some pdArray ∧
    WellFormedVd vdArray naa ∧ WellFormedPds pdArray med

/-- At least one of the two keys of index `i` is absent from `rs`. -/
def GapAt (rs : List (String × JSON)) (i : Nat) : Prop :=
  rs.lookup (vdKey i) = none ∨ rs.lookup (pdKey i) = none

/-- Index `i` of the map `rs` decodes to the record `r`: both keys are present, the
properties value decodes to a `VdObj`, the drives value decodes to a non-empty list, and
`r` has the identifier `wwn-0x` followed by the NAA id, with the media type of the first
drive. -/
def DecodesAt (rs : List (String × JSON)) (i : Nat) (r : VdInfo) : Prop :=
  ∃ vdArray pdArray vds pd pds, rs.lookup (vdKey i) = some vdArray ∧
    rs.lookup (pdKey i) = some pdArray ∧ convertVd vdArray = .ok vds ∧
    convertPd pdArray = .ok (pd :: pds) ∧ r = ⟨wwnOf vds.SCSI, pd.Med⟩

/-- The records `recs` are those of the indices `0..m-1` of the map `rs`, in order, for
some `m` of at most 101: none comes from an index above 100. -/
def BoundedRecords (rs : List (String × JSON)) (recs : List VdInfo) : Prop :=
  ∃ m, m ≤ 101 ∧ List.Forall₂ (fun i r => DecodesAt rs i r) (List.range m) recs

/-- The records `recs` are the 101 records of the indices `0..100` of the map `rs`. -/
def FullRecords (rs : List (String × JSON)) (recs : List VdInfo) : Prop :=
  recs.length = 101 ∧ List.Forall₂ (fun i r => DecodesAt rs i r) (List.range 101) recs

/-- The response of the controller `ctl` is well formed and yields the records `recs`:
the status is `Success`, and for some `k` within the bound of the scan the indices
`0..k-1` are well formed, index `k` is a gap, and `recs` lists, in index order, for each
index the identifier `wwn-0x` followed by the NAA id, with the media type of the first
physical drive. -/
def ControllerYields (ctl : MegaCtl) (recs : List VdInfo) : Prop :=
  ctl.CommandStatus.Status = "Success" ∧
    ∃ (k : Nat) (naa med : Nat → String), k ≤ maxNum + 1 ∧
      (∀ i < k, WellFormedAt ctl.ResponseStatus i (naa i) (med i)) ∧
      GapAt ctl.ResponseStatus k ∧
      recs = (List.range k).map (fun i => ⟨wwnOf (naa i), med i⟩)

/-- The scan of the controllers of `output` reaches index `i` of the controller `ctl`: the
controllers before `ctl` report `Success` and their scans end without a returned error
and without a panic, `ctl` reports `Success`, `i` is within the bound, and every index of
`ctl` below `i` yields a record. -/
def ScanReaches (output : MegaOutput) (ctl : MegaCtl) (i : Nat) : Prop :=
  ∃ pre post, output.Controllers = pre ++ ctl :: post ∧
    (∀ c ∈ pre, c.CommandStatus.Status = "Success" ∧
      ∃ out, scanVds c.ResponseStatus (List.range (maxNum + 1)) [] = .ok (out, none)) ∧
    ctl.CommandStatus.Status = "Success" ∧ i ≤ maxNum ∧
    ∀ j < i, ∃ r, scanBody ctl.ResponseStatus j = .next r

/-! ## Concrete inputs -/

/-- The number that a sequence of decimal digits denotes. -/
def digitsVal (cs : List Char) : Nat := cs.foldl (fun a c => a * 10 + (c.toNat - 48)) 0

/-- A value of `PDs for VD <i>`: one object `{"Med": m}` for each media type given. -/
def pdsOf (meds : List String) : JSON :=
  JSON.arr (meds.map fun m => JSON.obj [("Med", JSON.str m)])

/-- A value of `VD<i> Properties`: the object `{"SCSI NAA Id": naa}`. -/
def vdOf (naa : String) : JSON := JSON.obj [("SCSI NAA Id", JSON.str naa)]

/-- The response map with the virtual drives `0..k-1`: drive `i` has the NAA id `i` in
decimal digits and one physical drive, an HDD. -/
def responseWith (k : Nat) : List (String × JSON) :=
  (List.range k).flatMap fun i => [(vdKey i, vdOf (toString i)), (pdKey i, pdsOf ["HDD"])]

/-- A controller that reports `Success` with the virtual drives `0..k-1`. -/
def ctlWith (k : Nat) : MegaCtl := ⟨⟨0, "Success", "None"⟩, responseWith k⟩

/-- The surroundings in which the tool prints a text that decodes to `output`. -/
def envOf (output : MegaOutput) : Env where
  Output := fun name a =>
    if name = megaCliPath ∧ a = arg then .ok "raw" else .error (.external "not found")
  Unmarshal := fun buf =>
    if buf = "raw" then .ok output else .error (.external "unexpected end of JSON input")

/-- The response map of the example of a gap: the keys of the indices 0, 1 and 3 are
present, those of index 2 are not. -/
def gapResponse : List (String × JSON) :=
  [("VD0 Properties", vdOf "a0"), ("PDs for VD 0", pdsOf ["HDD"]),
   ("VD1 Properties", vdOf "a1"), ("PDs for VD 1", pdsOf ["SSD"]),
   ("VD3 Properties", vdOf "a3"), ("PDs for VD 3", pdsOf ["HDD"])]

/-- The records of the indices 0 and 1 of `gapResponse`. -/
def gapRecords (i : Nat) : VdInfo :=
  if i = 0 then ⟨"wwn-0xa0", "HDD"⟩ else ⟨"wwn-0xa1", "SSD"⟩

/-- A controller that reports a failure whose description contains a percent sign. -/
def failedOutput : MegaOutput :=
  ⟨[⟨⟨0, "Failure", "Rebuild in progress: 45% complete"⟩, []⟩]⟩

/-- A controller with two virtual drives that report the same NAA id, the first on an
HDD and the second on an SSD. -/
def twinOutput : MegaOutput :=
  ⟨[⟨⟨0, "Success", "None"⟩,
      [("VD0 Properties", vdOf "ABC123"), ("PDs for VD 0", pdsOf ["HDD"]),
       ("VD1 Properties", vdOf "ABC123"), ("PDs for VD 1", pdsOf ["SSD"])]⟩]⟩

/-- A controller with one virtual drive `ABC123` on an SSD. -/
def ssdOutput : MegaOutput :=
  ⟨[⟨⟨0, "Success", "None"⟩,
      [("VD0 Properties", vdOf "ABC123"), ("PDs for VD 0", pdsOf ["SSD"])]⟩]⟩

/-- A controller whose only virtual drive has an empty list of physical drives. -/
def emptyPdsOutput : MegaOutput :=
  ⟨[⟨⟨0, "Success", "None"⟩,
      [("VD0 Properties", vdOf "ABC123"), ("PDs for VD 0", JSON.arr [])]⟩]⟩

/-- A controller whose only virtual drive has `null` for its physical drives. -/
def nullPdsOutput : MegaOutput :=
  ⟨[⟨⟨0, "Success", "None"⟩,
      [("VD0 Properties", vdOf "ABC123"), ("PDs for VD 0", JSON.null)]⟩]⟩

/-- A device with one by-id record, one of whose links ends in `wwn-0xABC123`. -/
def sdaDevice : BlockDevice :=
  ⟨⟨"/dev/sda"⟩, ⟨"", "PERC H730"⟩,
    [⟨"by-path", ["/dev/disk/by-path/pci-0000:02:00.0-scsi-0:2:0:0"]⟩,
     ⟨"by-id", ["/dev/disk/by-id/scsi-36ABC123", "/dev/disk/by-id/wwn-0xABC123"]⟩]⟩

/-- A device with two by-id records; the link that ends in `wwn-0xABC123` is in the
second one. -/
def sdbDevice : BlockDevice :=
  ⟨⟨"/dev/sdb"⟩, ⟨"", "PERC H730"⟩,
    [⟨"by-id", ["/dev/disk/by-id/scsi-36ABC123"]⟩,
     ⟨"by-id", ["/dev/disk/by-id/wwn-0xABC123"]⟩]⟩

/-- A device without a by-id record. -/
def sdcDevice : BlockDevice :=
  ⟨⟨"/dev/sdc"⟩, ⟨"", "PERC H730"⟩,
    [⟨"by-path", ["/dev/disk/by-path/pci-0000:02:00.0-scsi-0:2:2:0"]⟩]⟩

/-- The surroundings in which the tool cannot be run. -/
def brokenEnv : Env where
  Output := fun _ _ =>
    .error (.external "fork/exec /opt/MegaRAID/storcli/storcli64: no such file or directory")
  Unmarshal := fun _ => .error (.external "unexpected end of JSON input")

/-- Two controllers, with two and one virtual drive. -/
def sampleOutput : MegaOutput :=
  ⟨[⟨⟨0, "Success", "None"⟩,
      [("VD0 Properties", vdOf "6a416e7a06f9600027d34e94a257db13"),
       ("PDs for VD 0", pdsOf ["HDD", "HDD"]),
       ("VD1 Properties", vdOf "ABC123"),
       ("PDs for VD 1", pdsOf ["SSD"])]⟩,
    ⟨⟨1, "Success", "None"⟩,
      [("VD0 Properties", vdOf "5000c500a1b2c3d4"), ("PDs for VD 0", pdsOf ["SSD", "HDD"])]⟩]⟩

/-! # Theorems -/

/-! ## Lemmas on the decoders -/

theorem keyMatches_self (name : String) : keyMatches name name = true := by
  simp [keyMatches]

theorem unmarshalStringField_eq (struct name s : String) (l : List (String × JSON))
    (h : ∀ kv ∈ l, keyMatches name kv.1 = true → kv = (name, JSON.str s)) (cur : String) :
    unmarshalStringField struct name l cur =
      .ok (if l.any (fun kv => keyMatches name kv.1) then s else cur) := by
  induction l generalizing cur with
  | nil => simp [unmarshalStringField]
  | cons kv rest ih =>
    obtain ⟨k, v⟩ := kv
    have hrest : ∀ kv ∈ rest, keyMatches name kv.1 = true → kv = (name, JSON.str s) :=
      fun kv hkv => h kv (List.mem_cons_of_mem _ hkv)
    by_cases hk : keyMatches name k = true
    · have hkv := h (k, v) (List.mem_cons_self _ _) hk
      simp only [Prod.mk.injEq] at hkv
      obtain ⟨rfl, rfl⟩ := hkv
      simp only [unmarshalStringField, hk, if_true, List.any_cons, Bool.true_or]
      rw [ih hrest]
      split <;> rfl
    · simp only [Bool.not_eq_true] at hk
      simp only [unmarshalStringField, hk, List.any_cons, Bool.false_or]
      exact ih hrest cur

theorem unmarshalStringField_sortKeys (struct name s : String) (fields : List (String × JSON))
    (h : HasStringField name fields s) :
    unmarshalStringField struct name (sortKeys fields) "" = .ok s := by
  have hperm : ∀ kv, kv ∈ sortKeys fields ↔ kv ∈ fields :=
    fun kv => (List.perm_insertionSort keyLE fields).mem_iff
  rw [unmarshalStringField_eq struct name s (sortKeys fields)
    (fun kv hkv => h.2 kv ((hperm kv).1 hkv))]
  have hany : (sortKeys fields).any (fun kv => keyMatches name kv.1) = true := by
    rw [List.any_eq_true]
    exact ⟨(name, JSON.str s), (hperm _).2 h.1, keyMatches_self name⟩
  rw [hany]; rfl

theorem convertVd_wellFormed (v : JSON) (naa : String) (h : WellFormedVd v naa) :
    convertVd v = .ok ⟨naa⟩ := by
  obtain ⟨fields, rfl, hf⟩ := h
  simp [convertVd, unmarshalStringField_sortKeys "VdObj" "SCSI NAA Id" naa fields hf]

theorem unmarshalPdObj_wellFormed (e : JSON) (med : String) (h : WellFormedPd e med) :
    unmarshalPdObj e = .ok ⟨med⟩ := by
  obtain ⟨fields, rfl, hf⟩ := h
  simp [unmarshalPdObj, unmarshalStringField_sortKeys "PdObj" "Med" med fields hf]

theorem unmarshalPdObjs_wellFormed (es : List JSON) (h : ∀ x ∈ es, ∃ m, WellFormedPd x m) :
    ∃ pds, unmarshalPdObjs es = .ok pds := by
  induction es with
  | nil => exact ⟨[], rfl⟩
  | cons e es ih =>
    obtain ⟨m, hm⟩ := h e (List.mem_cons_self _ _)
    obtain ⟨pds, hpds⟩ := ih (fun x hx => h x (List.mem_cons_of_mem _ hx))
    exact ⟨⟨m⟩ :: pds, by simp [unmarshalPdObjs, unmarshalPdObj_wellFormed e m hm, hpds]⟩

theorem convertPd_wellFormed (v : JSON) (med : String) (h : WellFormedPds v med) :
    ∃ rest, convertPd v = .ok (⟨med⟩ :: rest) := by
  obtain ⟨e, es, rfl, he, hes⟩ := h
  obtain ⟨pds, hpds⟩ := unmarshalPdObjs_wellFormed es hes
  exact ⟨pds, by simp [convertPd, unmarshalPdObjs, unmarshalPdObj_wellFormed e med he, hpds]⟩

theorem scanBody_wellFormed (rs : List (String × JSON)) (i : Nat) (naa med : String)
    (h : WellFormedAt rs i naa med) : scanBody rs i = .next ⟨wwnOf naa, med⟩ := by
  obtain ⟨vdArray, pdArray, hvd, hpd, hwv, hwp⟩ := h
  obtain ⟨rest, hrest⟩ := convertPd_wellFormed pdArray med hwp
  simp [scanBody, hvd, hpd, hrest, convertVd_wellFormed vdArray naa hwv]

theorem scanBody_gap (rs : List (String × JSON)) (i : Nat) (h : GapAt rs i) :
    scanBody rs i = .brk := by
  unfold scanBody
  rcases h with h | h
  · simp [h]
  · cases hvd : rs.lookup (vdKey i) with
    | none => rfl
    | some vdArray => simp [h]

/-! ## Lemmas on the scan of one controller -/

theorem scanVds_next_prefix (rs : List (String × JSON)) (f : Nat → VdInfo) (is₁ is₂ : List Nat)
    (h : ∀ i ∈ is₁, scanBody rs i = .next (f i)) (acc : List VdInfo) :
    scanVds rs (is₁ ++ is₂) acc = scanVds rs is₂ (acc ++ is₁.map f) := by
  induction is₁ generalizing acc with
  | nil => simp
  | cons i is ih =>
    have hi := h i (List.mem_cons_self _ _)
    have hrec := ih (fun j hj => h j (List.mem_cons_of_mem _ hj)) (acc ++ [f i])
    simp only [List.cons_append, scanVds, hi, List.map_cons]
    simpa using hrec

theorem range_split (j n : Nat) (h : j < n) :
    List.range n = List.range j ++ j :: (List.range (n - j - 1)).map (fun t => j + 1 + t) := by
  have h1 : n = j + ((n - j - 1) + 1) := by omega
  conv_lhs => rw [h1, List.range_add, List.range_succ_eq_map]
  simp only [List.map_cons, Nat.add_zero, List.map_map, List.append_cancel_left_eq,
    List.cons.injEq, true_and]
  apply List.map_congr_left
  intro t _
  simp only [Function.comp, Nat.succ_eq_add_one]
  omega

/-- The scan stops at the first gap `j` within the bound, after the records of the
indices below `j`. -/
theorem scanVds_stops_at_gap (rs : List (String × JSON)) (f : Nat → VdInfo) (j : Nat)
    (hj : j ≤ maxNum) (h : ∀ i < j, scanBody rs i = .next (f i)) (hgap : scanBody rs j = .brk)
    (acc : List VdInfo) :
    scanVds rs (List.range (maxNum + 1)) acc = .ok (acc ++ (List.range j).map f, none) := by
  rw [range_split j (maxNum + 1) (by omega),
    scanVds_next_prefix rs f _ _ (fun i hi => h i (List.mem_range.1 hi))]
  simp only [scanVds, hgap]

/-- The scan visits the indices up to the bound and no further. -/
theorem scanVds_full (rs : List (String × JSON)) (f : Nat → VdInfo)
    (h : ∀ i ≤ maxNum, scanBody rs i = .next (f i)) (acc : List VdInfo) :
    scanVds rs (List.range (maxNum + 1)) acc =
      .ok (acc ++ (List.range (maxNum + 1)).map f, none) := by
  have := scanVds_next_prefix rs f (List.range (maxNum + 1)) []
    (fun i hi => h i (Nat.lt_succ_iff.1 (List.mem_range.1 hi))) acc
  rw [List.append_nil] at this
  rw [this]; rfl


/-- When every index up to the bound yields a record, the scan returns `maxNum + 1`
records. -/
theorem scanVds_full_length (rs : List (String × JSON))
    (h : ∀ i ≤ maxNum, ∃ r, scanBody rs i = .next r) (acc : List VdInfo) :
    ∃ recs, scanVds rs (List.range (maxNum + 1)) acc = .ok (acc ++ recs, none) ∧
      recs.length = maxNum + 1 := by
  let f : Nat → VdInfo := fun i =>
    match scanBody rs i with
    | .next r => r
    | _ => ⟨"", ""⟩
  have hf : ∀ i ≤ maxNum, scanBody rs i = .next (f i) := by
    intro i hi
    obtain ⟨r, hr⟩ := h i hi
    simp only [f, hr]
  exact ⟨_, scanVds_full rs f hf acc, by simp⟩

/-! ## Lemmas on the scan of the controllers -/

theorem scanControllers_yields (ctls : List MegaCtl) (recss : List (List VdInfo))
    (h : List.Forall₂ ControllerYields ctls recss) (acc : List VdInfo) :
    scanControllers ctls acc = .ok (acc ++ recss.flatten, none) := by
  induction h generalizing acc with
  | nil => simp [scanControllers]
  | @cons ctl recs ctls recss hc _ ih =>
    obtain ⟨hs, k, naa, med, hk, hwf, hgap, rfl⟩ := hc
    have hscan : scanVds ctl.ResponseStatus (List.range (maxNum + 1)) acc =
        .ok (acc ++ (List.range k).map (fun i => ⟨wwnOf (naa i), med i⟩), none) := by
      rcases Nat.lt_or_ge maxNum k with hlt | hle
      · have hk' : k = maxNum + 1 := by omega
        subst hk'
        exact scanVds_full _ _ (fun i hi => scanBody_wellFormed _ i _ _ (hwf i (by omega))) acc
      · exact scanVds_stops_at_gap _ _ k hle
          (fun i hi => scanBody_wellFormed _ i _ _ (hwf i hi)) (scanBody_gap _ k hgap) acc
    simp only [scanControllers, hs, bne_self_eq_false, Bool.false_eq_true, if_false, hscan]
    rw [ih]
    simp

theorem scanControllers_cons_ok (ctl : MegaCtl) (rest : List MegaCtl) (acc out : List VdInfo)
    (hs : ctl.CommandStatus.Status = "Success")
    (h : scanVds ctl.ResponseStatus (List.range (maxNum + 1)) acc = .ok (out, none)) :
    scanControllers (ctl :: rest) acc = scanControllers rest out := by
  simp only [scanControllers, hs, bne_self_eq_false, Bool.false_eq_true, if_false, h]

theorem getVdInfos_decoded (env : Env) (buf : String) (output : MegaOutput)
    (hrun : env.Output megaCliPath arg = .ok buf) (hdec : env.Unmarshal buf = .ok output) :
    (getVdInfos env).2 = scanControllers output.Controllers [] := by
  simp [getVdInfos, hrun, hdec]

/-! ## Lemmas on the keys and on the concrete inputs -/

theorem digitChar_val : ∀ d < 10, (Nat.digitChar d).toNat - 48 = d := by decide

theorem toDigitsCore_val (fuel : Nat) : ∀ (n : Nat) (ds : List Char), n < fuel →
    ∃ pre, Nat.toDigitsCore 10 fuel n ds = pre ++ ds ∧ digitsVal pre = n := by
  induction fuel with
  | zero => intro n ds h; omega
  | succ fuel ih =>
    intro n ds h
    unfold Nat.toDigitsCore
    by_cases h0 : n / 10 = 0
    · refine ⟨[Nat.digitChar (n % 10)], by simp [h0], ?_⟩
      simp only [digitsVal, List.foldl, Nat.zero_mul, Nat.zero_add]
      rw [digitChar_val _ (Nat.mod_lt _ (by decide))]
      omega
    · obtain ⟨pre, hpre, hval⟩ := ih (n / 10) (Nat.digitChar (n % 10) :: ds) (by omega)
      refine ⟨pre ++ [Nat.digitChar (n % 10)], by simp [h0, hpre], ?_⟩
      simp only [digitsVal, List.foldl_append, List.foldl] at hval ⊢
      rw [hval, digitChar_val _ (Nat.mod_lt _ (by decide))]
      omega

theorem toString_nat_injective (i j : Nat) (h : toString i = toString j) : i = j := by
  have hd : Nat.toDigits 10 i = Nat.toDigits 10 j := by
    have := congrArg String.data h
    simpa [toString, Nat.repr, List.asString] using this
  obtain ⟨pi, hpi, hvi⟩ := toDigitsCore_val (i + 1) i [] (by omega)
  obtain ⟨pj, hpj, hvj⟩ := toDigitsCore_val (j + 1) j [] (by omega)
  unfold Nat.toDigits at hd
  rw [hpi, hpj, List.append_nil, List.append_nil] at hd
  rw [← hvi, ← hvj, hd]

theorem vdKey_injective (i j : Nat) (h : vdKey i = vdKey j) : i = j := by
  have hd := congrArg String.data h
  simp only [vdKey, String.data_append, List.append_assoc] at hd
  have h2 := List.append_cancel_right (List.append_cancel_left hd)
  exact toString_nat_injective i j (String.ext h2)

theorem pdKey_injective (i j : Nat) (h : pdKey i = pdKey j) : i = j := by
  have hd := congrArg String.data h
  simp only [pdKey, String.data_append] at hd
  exact toString_nat_injective i j (String.ext (List.append_cancel_left hd))

theorem vdKey_ne_pdKey (i j : Nat) : vdKey i ≠ pdKey j := by
  intro h
  have hd := congrArg String.data h
  simp only [vdKey, pdKey, String.data_append] at hd
  have h1 : ("VD".data ++ (toString i).data ++ " Properties".data).head? = some 'V' := rfl
  have h2 : ("PDs for VD ".data ++ (toString j).data).head? = some 'P' := rfl
  rw [hd, h2] at h1
  exact absurd h1 (by decide)

theorem lookup_mem {k : String} {v : JSON} (l : List (String × JSON))
    (h : l.lookup k = some v) : (k, v) ∈ l := by
  induction l with
  | nil => simp at h
  | cons kv rest ih =>
    obtain ⟨k', v'⟩ := kv
    by_cases hk : k = k'
    · subst hk
      simp at h
      subst h
      exact List.mem_cons_self _ _
    · have hb : (k == k') = false := by simpa using hk
      simp only [List.lookup, hb] at h
      exact List.mem_cons_of_mem _ (ih h)

theorem lookup_append (l₁ l₂ : List (String × JSON)) (k : String) :
    (l₁ ++ l₂).lookup k = (l₁.lookup k).orElse (fun _ => l₂.lookup k) := by
  induction l₁ with
  | nil => rfl
  | cons kv rest ih =>
    obtain ⟨k', v'⟩ := kv
    by_cases hk : (k == k') = true
    · simp [List.lookup, hk]
    · simp only [Bool.not_eq_true] at hk
      simp only [List.lookup, hk, List.cons_append]
      exact ih

theorem responseWith_succ (k : Nat) :
    responseWith (k + 1) =
      responseWith k ++ [(vdKey k, vdOf (toString k)), (pdKey k, pdsOf ["HDD"])] := by
  simp [responseWith, List.range_succ, List.flatMap_append]

/-- The key `VD<i> Properties` in `responseWith k`. -/
theorem responseWith_lookup_vdKey (k i : Nat) :
    (responseWith k).lookup (vdKey i) = if i < k then some (vdOf (toString i)) else none := by
  induction k with
  | zero => simp [responseWith]
  | succ k ih =>
    rw [responseWith_succ, lookup_append, ih]
    by_cases hlt : i < k
    · simp [hlt, Nat.lt_succ_of_lt hlt]
    · by_cases heq : i = k
      · subst heq
        simp [List.lookup]
      · have h1 : (vdKey i == vdKey k) = false := by
          simpa using fun h => heq (vdKey_injective i k h)
        have h2 : (vdKey i == pdKey k) = false := by simpa using vdKey_ne_pdKey i k
        have h3 : ¬ i < k + 1 := by omega
        simp [hlt, h3, List.lookup, h1, h2]

/-- The key `PDs for VD <i>` in `responseWith k`. -/
theorem responseWith_lookup_pdKey (k i : Nat) :
    (responseWith k).lookup (pdKey i) = if i < k then some (pdsOf ["HDD"]) else none := by
  induction k with
  | zero => simp [responseWith]
  | succ k ih =>
    rw [responseWith_succ, lookup_append, ih]
    by_cases hlt : i < k
    · simp [hlt, Nat.lt_succ_of_lt hlt]
    · have h2 : (pdKey i == vdKey k) = false := by
        simpa using fun h => vdKey_ne_pdKey k i h.symm
      by_cases heq : i = k
      · subst heq
        simp [List.lookup, h2]
      · have h1 : (pdKey i == pdKey k) = false := by
          simpa using fun h => heq (pdKey_injective i k h)
        have h3 : ¬ i < k + 1 := by omega
        simp [hlt, h3, List.lookup, h1, h2]

theorem wellFormedVd_vdOf (naa : String) : WellFormedVd (vdOf naa) naa :=
  ⟨_, rfl, by simp [HasStringField]⟩

theorem wellFormedPd_obj (m : String) : WellFormedPd (JSON.obj [("Med", JSON.str m)]) m :=
  ⟨_, rfl, by simp [HasStringField]⟩

theorem wellFormedPds_pdsOf (m : String) (ms : List String) :
    WellFormedPds (pdsOf (m :: ms)) m := by
  refine ⟨_, _, rfl, wellFormedPd_obj m, ?_⟩
  intro x hx
  obtain ⟨m', _, rfl⟩ := List.mem_map.1 hx
  exact ⟨m', wellFormedPd_obj m'⟩

/-- In `responseWith k` every index below `k` is well formed. -/
theorem responseWith_wellFormedAt (k i : Nat) (h : i < k) :
    WellFormedAt (responseWith k) i (toString i) "HDD" :=
  ⟨_, _, by rw [responseWith_lookup_vdKey, if_pos h], by rw [responseWith_lookup_pdKey, if_pos h],
    wellFormedVd_vdOf _, wellFormedPds_pdsOf "HDD" []⟩

/-- In `responseWith k` index `k` is a gap. -/
theorem responseWith_gapAt (k : Nat) : GapAt (responseWith k) k :=
  Or.inl (by rw [responseWith_lookup_vdKey, if_neg (Nat.lt_irrefl k)])

/-- The record that `responseWith k` holds at index `i`. -/
theorem scanBody_responseWith (k i : Nat) (h : i < k) :
    scanBody (responseWith k) i = .next ⟨wwnOf (toString i), "HDD"⟩ :=
  scanBody_wellFormed _ i _ _ (responseWith_wellFormedAt k i h)

/-- The scan of `responseWith k`, for `k` above the bound, yields the 101 records of the
indices `0..100`. -/
theorem scanVds_responseWith_big (k : Nat) (hk : maxNum < k) (acc : List VdInfo) :
    scanVds (responseWith k) (List.range (maxNum + 1)) acc =
      .ok (acc ++ (List.range (maxNum + 1)).map (fun i => ⟨wwnOf (toString i), "HDD"⟩), none) :=
  scanVds_full _ _ (fun i hi => scanBody_responseWith k i (by omega)) acc

/-! ## C1: extraction from a well-formed response -/

/-- C1 (as amended): for a decoded tool response in which every controller reports
`Success` and has, for some `k` of at most 101, well-formed values under both keys of
the indices `0..k-1` (a properties object with a string `SCSI NAA Id`, a non-empty array of
objects with a string `Med`, no key spelled a second time in another letter case) and a
gap at index `k`, `getVdInfos` returns no error and, for each controller in turn, exactly
the `k` records of the indices `0..k-1` in order, record `i` with
`WWN = "wwn-0x" ++ NAA id` and `DriverType` the `Med` of the first entry. -/
theorem getVdInfos_contiguous (env : Env) (buf : String) (output : MegaOutput)
    (recss : List (List VdInfo))
    (hrun : env.Output megaCliPath arg = .ok buf) (hdec : env.Unmarshal buf = .ok output)
    (hwf : List.Forall₂ ControllerYields output.Controllers recss) :
    (getVdInfos env).2 = .ok (recss.flatten, none) := by
  rw [getVdInfos_decoded env buf output hrun hdec, scanControllers_yields _ _ hwf]
  simp

/-- Witness of C1 on a response of two controllers with two and one virtual drive. -/
theorem getVdInfos_contiguous_witness :
    (getVdInfos (envOf sampleOutput)).2 =
      .ok ([⟨"wwn-0x6a416e7a06f9600027d34e94a257db13", "HDD"⟩, ⟨"wwn-0xABC123", "SSD"⟩,
        ⟨"wwn-0x5000c500a1b2c3d4", "SSD"⟩], none) :=
  getVdInfos_contiguous (envOf sampleOutput) "raw" sampleOutput
    [[⟨"wwn-0x6a416e7a06f9600027d34e94a257db13", "HDD"⟩, ⟨"wwn-0xABC123", "SSD"⟩],
      [⟨"wwn-0x5000c500a1b2c3d4", "SSD"⟩]]
    (by decide) (by simp [envOf])
    (List.Forall₂.cons
      ⟨rfl, 2, fun i => if i = 0 then "6a416e7a06f9600027d34e94a257db13" else "ABC123",
        fun i => if i = 0 then "HDD" else "SSD", by decide,
        by
          intro i hi
          have hi' : i = 0 ∨ i = 1 := by omega
          rcases hi' with rfl | rfl
          · exact ⟨_, _, rfl, rfl, wellFormedVd_vdOf _, wellFormedPds_pdsOf _ _⟩
          · exact ⟨_, _, rfl, rfl, wellFormedVd_vdOf _, wellFormedPds_pdsOf _ _⟩,
        Or.inl rfl, rfl⟩
      (List.Forall₂.cons
        ⟨rfl, 1, fun _ => "5000c500a1b2c3d4", fun _ => "SSD", by decide,
          by
            intro i hi
            have hi' : i = 0 := by omega
            subst hi'
            exact ⟨_, _, rfl, rfl, wellFormedVd_vdOf _, wellFormedPds_pdsOf _ _⟩,
          Or.inl rfl, rfl⟩
        List.Forall₂.nil))

/-- Counterexample to C1 as stated: the controller that reports `Success` with well-formed
values under both keys of exactly the indices `0..101` (`k = 102`) yields the 101 records
of the indices `0..100`, not 102 records. -/
theorem getVdInfos_contiguous_counterexample :
    (∀ ctl ∈ [ctlWith 102], ctl.CommandStatus.Status = "Success") ∧
    (∀ i < 102, WellFormedAt (ctlWith 102).ResponseStatus i (toString i) "HDD") ∧
    GapAt (ctlWith 102).ResponseStatus 102 ∧
    ∃ vdInfos, (getVdInfos (envOf ⟨[ctlWith 102]⟩)).2 = .ok (vdInfos, none) ∧
      vdInfos.length = 101 ∧ vdInfos.length ≠ 102 := by
  refine ⟨by simp [ctlWith], fun i hi => responseWith_wellFormedAt 102 i hi,
    responseWith_gapAt 102,
    [] ++ (List.range (maxNum + 1)).map (fun i => ⟨wwnOf (toString i), "HDD"⟩), ?_,
    by simp [maxNum], by simp [maxNum]⟩
  rw [getVdInfos_decoded (envOf ⟨[ctlWith 102]⟩) "raw" ⟨[ctlWith 102]⟩ (by decide)
    (by simp [envOf])]
  exact scanControllers_cons_ok (ctlWith 102) [] [] _ rfl
    (scanVds_responseWith_big 102 (by decide) [])

/-! ## C2: the scan stops at the first gap -/

theorem scanBody_eq_next_iff (rs : List (String × JSON)) (i : Nat) (r : VdInfo) :
    scanBody rs i = .next r ↔ DecodesAt rs i r := by
  constructor
  · intro h
    unfold scanBody at h
    split at h
    · cases h
    · rename_i vdArray hvd
      split at h
      · cases h
      · rename_i pdArray hpd
        split at h
        · cases h
        · rename_i pds hpds
          split at h
          · cases h
          · rename_i vds hvds
            split at h
            · cases h
            · rename_i pd rest
              simp only [Step.next.injEq] at h
              exact ⟨vdArray, pdArray, vds, pd, rest, hvd, hpd, hvds, hpds, h.symm⟩
  · rintro ⟨vdArray, pdArray, vds, pd, pds, hvd, hpd, hvds, hpds, rfl⟩
    simp [scanBody, hvd, hpd, hvds, hpds]

/-- C2 (as amended): for every response map and every index `j` of at most 101, if every
index below `j` decodes to a record (both keys present, values that decode, a non-empty
list of drives) and at least one of the two keys is absent at index `j`, the extraction loop
ends without error having appended exactly the records of the indices `0..j-1`, in order,
whatever the map holds at the indices above `j`. -/
theorem scanVds_truncates_at_first_gap (rs : List (String × JSON)) (j : Nat)
    (f : Nat → VdInfo) (acc : List VdInfo) (hj : j ≤ maxNum + 1)
    (hdec : ∀ i < j, DecodesAt rs i (f i)) (hgap : GapAt rs j) :
    scanVds rs (List.range (maxNum + 1)) acc = .ok (acc ++ (List.range j).map f, none) := by
  have hnext : ∀ i < j, scanBody rs i = .next (f i) :=
    fun i hi => (scanBody_eq_next_iff rs i (f i)).2 (hdec i hi)
  rcases Nat.lt_or_ge maxNum j with hlt | hle
  · have hj' : j = maxNum + 1 := by omega
    subst hj'
    exact scanVds_full rs f (fun i hi => hnext i (by omega)) acc
  · exact scanVds_stops_at_gap rs f j hle hnext (scanBody_gap rs j hgap) acc

/-- Witness of C2: with the keys of the indices 0, 1 and 3 present and those of index 2
absent, only the records of the indices 0 and 1 are extracted. -/
theorem scanVds_truncates_at_first_gap_witness :
    scanVds gapResponse (List.range (maxNum + 1)) [] =
      .ok ([⟨"wwn-0xa0", "HDD"⟩, ⟨"wwn-0xa1", "SSD"⟩], none) :=
  scanVds_truncates_at_first_gap gapResponse 2 gapRecords [] (by decide)
    (by
      intro i hi
      have hi' : i = 0 ∨ i = 1 := by omega
      rcases hi' with rfl | rfl
      · exact ⟨vdOf "a0", pdsOf ["HDD"], ⟨"a0"⟩, ⟨"HDD"⟩, [], rfl, rfl, by decide, by decide,
          by decide⟩
      · exact ⟨vdOf "a1", pdsOf ["SSD"], ⟨"a1"⟩, ⟨"SSD"⟩, [], rfl, rfl, by decide, by decide,
          by decide⟩)
    (Or.inl rfl)

/-- Counterexample to C2 as stated: in the map with both keys of all the indices `0..101`
and neither key of index 102 (`j = 102`), every index below 102 decodes to a record, yet
the loop yields the 101 records of the indices `0..100` and none for index 101. -/
theorem scanVds_truncates_at_first_gap_counterexample :
    (∀ i < 102, DecodesAt (responseWith 102) i ⟨wwnOf (toString i), "HDD"⟩) ∧
    GapAt (responseWith 102) 102 ∧
    scanVds (responseWith 102) (List.range (maxNum + 1)) [] =
      .ok ((List.range 101).map (fun i => ⟨wwnOf (toString i), "HDD"⟩), none) ∧
    ((List.range 101).map (fun i => (⟨wwnOf (toString i), "HDD"⟩ : VdInfo))).length ≠ 102 := by
  refine ⟨fun i hi => (scanBody_eq_next_iff _ i _).1 (scanBody_responseWith 102 i hi),
    responseWith_gapAt 102, ?_, by simp⟩
  simpa using scanVds_responseWith_big 102 (by decide) []

/-! ## C8: the bound of the scan -/

/-- Whatever the scan returns, it has appended the records of a prefix of the indices it
was given. -/
theorem scanVds_shape (rs : List (String × JSON)) (is : List Nat) :
    ∀ (acc out : List VdInfo) (e : Option GoError), scanVds rs is acc = .ok (out, e) →
      ∃ pre recs, pre <+: is ∧ out = acc ++ recs ∧
        List.Forall₂ (fun i r => DecodesAt rs i r) pre recs := by
  induction is with
  | nil =>
    intro acc out e h
    simp only [scanVds, Except.ok.injEq, Prod.mk.injEq] at h
    exact ⟨[], [], List.prefix_refl _, by simp [h.1], List.Forall₂.nil⟩
  | cons i is ih =>
    intro acc out e h
    unfold scanVds at h
    split at h
    · simp only [Except.ok.injEq, Prod.mk.injEq] at h
      exact ⟨[], [], List.nil_prefix, by simp [h.1], List.Forall₂.nil⟩
    · simp only [Except.ok.injEq, Prod.mk.injEq] at h
      exact ⟨[], [], List.nil_prefix, by simp [h.1], List.Forall₂.nil⟩
    · cases h
    · rename_i r hr
      obtain ⟨pre, recs, hpre, hout, hall⟩ := ih _ _ _ h
      refine ⟨i :: pre, r :: recs, (List.prefix_cons_inj i).2 hpre, by simp [hout],
        List.Forall₂.cons ((scanBody_eq_next_iff rs i r).1 hr) hall⟩

theorem prefix_range (pre : List Nat) (n : Nat) (h : pre <+: List.range n) :
    pre = List.range pre.length ∧ pre.length ≤ n := by
  have hlen : pre.length ≤ n := by simpa using h.length_le
  have htake := List.prefix_iff_eq_take.1 h
  rw [List.take_range, Nat.min_eq_left hlen] at htake
  exact ⟨htake, hlen⟩

/-- The records of one controller in the result: those of the indices `0..m-1` of its
response map, for some `m` of at most 101. -/
theorem scanVds_range_shape (rs : List (String × JSON)) (acc out : List VdInfo)
    (e : Option GoError) (h : scanVds rs (List.range (maxNum + 1)) acc = .ok (out, e)) :
    ∃ recs, out = acc ++ recs ∧ BoundedRecords rs recs := by
  obtain ⟨pre, recs, hpre, hout, hall⟩ := scanVds_shape rs _ acc out e h
  obtain ⟨hrange, hlen⟩ := prefix_range pre _ hpre
  exact ⟨recs, hout, pre.length, hlen, hrange ▸ hall⟩

theorem boundedRecords_length (rs : List (String × JSON)) (recs : List VdInfo)
    (h : BoundedRecords rs recs) : recs.length ≤ 101 := by
  obtain ⟨m, hm, hall⟩ := h
  have := hall.length_eq
  simp only [List.length_range] at this
  omega

/-- Whatever the extraction returns, its records come in groups, one for each controller
of a prefix of the controllers, each group bounded. -/
theorem scanControllers_shape (ctls : List MegaCtl) :
    ∀ (acc out : List VdInfo) (e : Option GoError), scanControllers ctls acc = .ok (out, e) →
      ∃ recss, out = acc ++ recss.flatten ∧ recss.length ≤ ctls.length ∧
        List.Forall₂ (fun ctl recs => BoundedRecords ctl.ResponseStatus recs)
          (ctls.take recss.length) recss := by
  induction ctls with
  | nil =>
    intro acc out e h
    simp only [scanControllers, Except.ok.injEq, Prod.mk.injEq] at h
    exact ⟨[], by simp [h.1], Nat.le_refl _, List.Forall₂.nil⟩
  | cons ctl rest ih =>
    intro acc out e h
    unfold scanControllers at h
    split at h
    · simp only [Except.ok.injEq, Prod.mk.injEq] at h
      exact ⟨[], by simp [h.1], Nat.zero_le _, List.Forall₂.nil⟩
    · split at h
      · cases h
      · rename_i v err hscan
        simp only [Except.ok.injEq, Prod.mk.injEq] at h
        obtain ⟨recs, hv, hb⟩ := scanVds_range_shape _ _ _ _ hscan
        exact ⟨[recs], by simp [← h.1, hv], by simp,
          List.Forall₂.cons hb List.Forall₂.nil⟩
      · rename_i v hscan
        obtain ⟨recs, hv, hb⟩ := scanVds_range_shape _ _ _ _ hscan
        obtain ⟨recss, hout, hlen, hall⟩ := ih _ _ _ h
        exact ⟨recs :: recss, by simp [hout, hv], by simpa using hlen,
          List.Forall₂.cons hb hall⟩

theorem flatten_length_le (ctls : List MegaCtl) (recss : List (List VdInfo))
    (h : List.Forall₂ (fun ctl recs => BoundedRecords ctl.ResponseStatus recs) ctls recss) :
    recss.flatten.length ≤ 101 * recss.length := by
  induction h with
  | nil => simp
  | @cons ctl recs ctls recss hb _ ih =>
    have := boundedRecords_length _ _ hb
    simp only [List.flatten_cons, List.length_append, List.length_cons]
    omega

theorem forall₂_range_map (rs : List (String × JSON)) (f : Nat → VdInfo) (l : List Nat)
    (h : ∀ i ∈ l, scanBody rs i = .next (f i)) :
    List.Forall₂ (fun i r => DecodesAt rs i r) l (l.map f) := by
  induction l with
  | nil => exact List.Forall₂.nil
  | cons i l ih =>
    exact List.Forall₂.cons ((scanBody_eq_next_iff rs i (f i)).1 (h i (List.mem_cons_self _ _)))
      (ih (fun j hj => h j (List.mem_cons_of_mem _ hj)))

/-- A controller whose indices up to the bound all yield a record contributes the 101
records of the indices `0..100`. -/
theorem scanVds_full_records (rs : List (String × JSON))
    (h : ∀ i ≤ maxNum, ∃ r, scanBody rs i = .next r) (acc : List VdInfo) :
    ∃ recs, scanVds rs (List.range (maxNum + 1)) acc = .ok (acc ++ recs, none) ∧
      FullRecords rs recs := by
  let f : Nat → VdInfo := fun i =>
    match scanBody rs i with
    | .next r => r
    | _ => ⟨"", ""⟩
  have hf : ∀ i ≤ maxNum, scanBody rs i = .next (f i) := by
    intro i hi
    obtain ⟨r, hr⟩ := h i hi
    simp only [f, hr]
  refine ⟨(List.range (maxNum + 1)).map f, scanVds_full rs f hf acc, by simp [maxNum], ?_⟩
  exact forall₂_range_map rs f _ (fun i hi => hf i (by
    have := List.mem_range.1 hi
    unfold maxNum
    omega))

theorem scanControllers_full (ctls : List MegaCtl)
    (h : ∀ ctl ∈ ctls, ctl.CommandStatus.Status = "Success" ∧
      ∀ i ≤ maxNum, ∃ r, scanBody ctl.ResponseStatus i = .next r) :
    ∀ acc, ∃ recss, scanControllers ctls acc = .ok (acc ++ recss.flatten, none) ∧
      List.Forall₂ (fun ctl recs => FullRecords ctl.ResponseStatus recs) ctls recss := by
  induction ctls with
  | nil => intro acc; exact ⟨[], by simp [scanControllers], List.Forall₂.nil⟩
  | cons ctl rest ih =>
    intro acc
    obtain ⟨hs, hall⟩ := h ctl (List.mem_cons_self _ _)
    obtain ⟨recs, hscan, hfull⟩ := scanVds_full_records ctl.ResponseStatus hall acc
    obtain ⟨recss, hrest, hforall⟩ :=
      ih (fun c hc => h c (List.mem_cons_of_mem _ hc)) (acc ++ recs)
    refine ⟨recs :: recss, ?_, List.Forall₂.cons hfull hforall⟩
    rw [scanControllers_cons_ok ctl rest acc _ hs hscan, hrest]
    simp

/-- C8 (as amended): the index scan of `getVdInfos` is bounded by 100. For every decoded
tool response, the records `getVdInfos` returns come in groups, one for each controller of
a prefix of `output.Controllers`, and the group of a controller holds the records of the
indices `0..m-1` of its response for some `m` of at most 101: no record comes from an
index above 100, and there are at most 101 records for each controller. When every
controller reports `Success` with keys present and well formed for every index in `0..n`
with `n ≥ 100`, `getVdInfos` returns without error exactly 101 records for each controller
(the indices `0..100`), which is fewer than `n + 1` as soon as `n > 100`. -/
theorem getVdInfos_bounded :
    (∀ (env : Env) (buf : String) (output : MegaOutput) (vdInfos : List VdInfo)
      (err : Option GoError),
      env.Output megaCliPath arg = .ok buf → env.Unmarshal buf = .ok output →
      (getVdInfos env).2 = .ok (vdInfos, err) →
        ∃ recss, vdInfos = recss.flatten ∧ recss.length ≤ output.Controllers.length ∧
          List.Forall₂ (fun ctl recs => BoundedRecords ctl.ResponseStatus recs)
            (output.Controllers.take recss.length) recss ∧
          vdInfos.length ≤ 101 * output.Controllers.length) ∧
    (∀ (env : Env) (buf : String) (output : MegaOutput) (n : Nat),
      env.Output megaCliPath arg = .ok buf → env.Unmarshal buf = .ok output → 100 ≤ n →
      (∀ ctl ∈ output.Controllers, ctl.CommandStatus.Status = "Success" ∧
        ∀ i ≤ n, ∃ naa med, WellFormedAt ctl.ResponseStatus i naa med) →
        ∃ recss, (getVdInfos env).2 = .ok (recss.flatten, none) ∧
          List.Forall₂ (fun ctl recs => FullRecords ctl.ResponseStatus recs ∧
            (100 < n → recs.length < n + 1)) output.Controllers recss) := by
  constructor
  · intro env buf output vdInfos err hrun hdec h
    rw [getVdInfos_decoded env buf output hrun hdec] at h
    obtain ⟨recss, hout, hlen, hall⟩ := scanControllers_shape _ _ _ _ h
    refine ⟨recss, by simpa using hout, hlen, hall, ?_⟩
    have h1 := flatten_length_le _ _ hall
    have h2 : vdInfos = recss.flatten := by simpa using hout
    have h3 : 101 * recss.length ≤ 101 * output.Controllers.length :=
      Nat.mul_le_mul_left 101 hlen
    rw [h2]
    omega
  · intro env buf output n hrun hdec hn hwf
    rw [getVdInfos_decoded env buf output hrun hdec]
    obtain ⟨recss, hscan, hall⟩ := scanControllers_full output.Controllers (fun ctl hctl =>
      ⟨(hwf ctl hctl).1, fun i hi => by
        obtain ⟨naa, med, hw⟩ := (hwf ctl hctl).2 i (by unfold maxNum at hi; omega)
        exact ⟨_, scanBody_wellFormed _ i naa med hw⟩⟩) []
    refine ⟨recss, by simpa using hscan, ?_⟩
    exact List.Forall₂.imp
      (fun _ _ hfull => ⟨hfull, fun hgt => by have := hfull.1; omega⟩) hall

/-- Witness of C8: the controller with the virtual drives `0..149` (`n = 149`) makes
`getVdInfos` return 101 records, fewer than 150. -/
theorem getVdInfos_bounded_witness :
    ∃ recss, (getVdInfos (envOf ⟨[ctlWith 150]⟩)).2 = .ok (recss.flatten, none) ∧
      List.Forall₂ (fun ctl recs => FullRecords ctl.ResponseStatus recs ∧
        (100 < 149 → recs.length < 149 + 1)) [ctlWith 150] recss :=
  getVdInfos_bounded.2 (envOf ⟨[ctlWith 150]⟩) "raw" ⟨[ctlWith 150]⟩ 149 (by decide)
    (by simp [envOf]) (by decide)
    (fun ctl hctl => by
      have hc : ctl = ctlWith 150 := by simpa using hctl
      subst hc
      exact ⟨rfl, fun i hi => ⟨_, _, responseWith_wellFormedAt 150 i (by omega)⟩⟩)

/-- Counterexample to C8 as stated (`n = 100`): for the controller that reports `Success`
with keys present and well formed for every index in `0..100`, and absent at 101,
`getVdInfos` returns 101 records, which is `n + 1`: every virtual drive of the controller. -/
theorem getVdInfos_bounded_counterexample :
    (ctlWith 101).CommandStatus.Status = "Success" ∧
    (∀ i ≤ 100, WellFormedAt (ctlWith 101).ResponseStatus i (toString i) "HDD") ∧
    GapAt (ctlWith 101).ResponseStatus 101 ∧
    (getVdInfos (envOf ⟨[ctlWith 101]⟩)).2 =
      .ok ((List.range 101).map (fun i => ⟨wwnOf (toString i), "HDD"⟩), none) ∧
    ((List.range 101).map (fun i => (⟨wwnOf (toString i), "HDD"⟩ : VdInfo))).length
      = 100 + 1 := by
  refine ⟨rfl, fun i hi => responseWith_wellFormedAt 101 i (by omega), responseWith_gapAt 101,
    ?_, by simp⟩
  rw [getVdInfos_decoded (envOf ⟨[ctlWith 101]⟩) "raw" ⟨[ctlWith 101]⟩ (by decide)
    (by simp [envOf])]
  have h := scanControllers_cons_ok (ctlWith 101) [] [] _ rfl
    (scanVds_responseWith_big 101 (by decide) [])
  rw [h]
  simp [scanControllers, maxNum]

/-! ## C3: the error of a controller that does not report success -/

theorem length_dropWhile_le (p : Char → Bool) (l : List Char) :
    (l.dropWhile p).length ≤ l.length :=
  (List.dropWhile_suffix p).length_le

theorem parsenumLoop_length (cs : List Char) :
    ∀ (num : Nat) (isnum : Bool), (parsenumLoop cs num isnum).2.2.length ≤ cs.length := by
  induction cs with
  | nil => intro num isnum; simp [parsenumLoop]
  | cons c cs ih =>
    intro num isnum
    unfold parsenumLoop
    split
    · split
      · simp
      · exact Nat.le_succ_of_le (ih _ _)
    · simp

theorem parsenum_length (seg : List Char) : (parsenum seg).2.2.length ≤ seg.length := by
  unfold parsenum
  split
  · simp
  · exact parsenumLoop_length _ _ _

theorem parseArgNumber_length (cs : List Char) :
    (parseArgNumber cs).2.length ≤ cs.length := by
  unfold parseArgNumber
  split
  · simp
  · simp only
    split
    · have h1 := length_dropWhile_le (fun c => c != ']') (cs.drop 1)
      have h2 : (cs.drop 1).length ≤ cs.length := by simp
      split <;> simp only [List.length_drop] at h1 h2 ⊢ <;> omega
    · simp

theorem argNumber_length (good : Bool) (cs : List Char) :
    (argNumber good cs).2.1.length ≤ cs.length := by
  unfold argNumber
  split
  · exact parseArgNumber_length _
  · exact Nat.le_refl _

theorem verbWidth_length (good afterIndex : Bool) (cs : List Char) :
    (verbWidth good afterIndex cs).2.2.1.length ≤ cs.length := by
  unfold verbWidth
  split
  · simp
  · exact parsenum_length _

theorem verbPrecision_length (good afterIndex : Bool) (cs : List Char) :
    (verbPrecision good afterIndex cs).2.2.1.length ≤ cs.length := by
  unfold verbPrecision
  split
  · rename_i c rest
    have hlen := argNumber_length (if afterIndex then false else good) (c :: rest)
    simp only
    split
    · rename_i rest2 heq
      rw [heq] at hlen
      simp only [List.length_cons] at hlen ⊢
      omega
    · have := parsenum_length (argNumber (if afterIndex then false else good) (c :: rest)).2.1
      simp only [List.length_cons] at hlen this ⊢
      omega
  · exact Nat.le_refl _

theorem verbIndex_length (good afterIndex : Bool) (cs : List Char) :
    (verbIndex good afterIndex cs).2.length ≤ cs.length := by
  unfold verbIndex
  split
  · exact argNumber_length _ _
  · exact Nat.le_refl _

theorem verbEnd_length (out : List Char) (good : Bool) (cs : List Char) :
    (verbEnd out good cs).2.1.length ≤ cs.length := by
  unfold verbEnd
  split
  · simp
  · split
    · simp
    · split <;> simp

/-- A verb of the format leaves no more of the format than it was given. -/
theorem doVerb_length (cs : List Char) : (doVerb cs).2.1.length ≤ cs.length := by
  unfold doVerb
  simp only
  apply Nat.le_trans (verbEnd_length _ _ _)
  apply Nat.le_trans (verbIndex_length _ _ _)
  apply Nat.le_trans (verbPrecision_length _ _ _)
  apply Nat.le_trans (verbWidth_length _ _ _)
  exact Nat.le_trans (argNumber_length _ _) (length_dropWhile_le _ _)

/-- The rounds of the format loop suffice: more of them do not change what is printed. -/
theorem doPrintfLoop_fuel (n : Nat) :
    ∀ (m : Nat) (cs out : List Char), cs.length ≤ n → cs.length ≤ m →
      doPrintfLoop n cs out = doPrintfLoop m cs out := by
  induction n with
  | zero =>
    intro m cs out hn _
    have hcs : cs = [] := List.length_eq_zero.1 (Nat.le_zero.1 hn)
    subst hcs
    cases m <;> rfl
  | succ n ih =>
    intro m cs out hn hm
    cases cs with
    | nil => cases m <;> rfl
    | cons c cs =>
      cases m with
      | zero => simp at hm
      | succ m =>
        simp only [List.length_cons, Nat.add_le_add_iff_right] at hn hm
        simp only [doPrintfLoop]
        split
        · exact ih m cs _ hn hm
        · have hlen := doVerb_length cs
          split
          · exact ih m _ _ (hlen.trans hn) (hlen.trans hm)
          · rfl

/-- A format without a percent sign is printed as it is. -/
theorem doPrintfLoop_no_percent (cs : List Char) (h : '%' ∉ cs) :
    ∀ (n : Nat) (out : List Char), cs.length ≤ n → doPrintfLoop n cs out = out ++ cs := by
  induction cs with
  | nil =>
    intro n out _
    cases n <;> simp [doPrintfLoop]
  | cons c cs ih =>
    intro n out hn
    cases n with
    | zero => simp at hn
    | succ n =>
      have hc : (c != '%') = true := by
        simp only [bne_iff_ne, ne_eq]
        intro hc
        exact h (hc ▸ List.mem_cons_self _ _)
      simp only [doPrintfLoop, hc, if_true]
      rw [ih (fun hmem => h (List.mem_cons_of_mem _ hmem)) n (out ++ [c])
        (by simpa using hn)]
      simp

/-- The message of `fmt.Errorf(format)` is `format` when it has no percent sign. -/
theorem Sprintf0_no_percent (format : String) (h : '%' ∉ format.toList) :
    Sprintf0 format = format := by
  obtain ⟨cs⟩ := format
  have hloop : doPrintfLoop (String.mk cs).length (String.mk cs).toList [] = cs := by
    have := doPrintfLoop_no_percent cs h cs.length [] (Nat.le_refl _)
    simpa using this
  unfold Sprintf0
  rw [hloop]

/-- C3 (evaluation at the failing input): for the controller with status `Failure` and
description `Rebuild in progress: 45% complete`, `getVdInfos` returns an error whose
message is `Rebuild in progress: 45%!c(MISSING)omplete`, which is not the description:
the description is used as the format of `fmt.Errorf`. -/
theorem getVdInfos_error_message_not_verbatim :
    (getVdInfos (envOf failedOutput)).2 =
      .ok ([], some (GoError.errorString "Rebuild in progress: 45%!c(MISSING)omplete")) ∧
    (GoError.errorString "Rebuild in progress: 45%!c(MISSING)omplete").Error ≠
      "Rebuild in progress: 45% complete" := by
  decide

/-! ## Lemmas on the matching loops -/

theorem setDriveType_setDriveType (bd : BlockDevice) (s t : String) :
    setDriveType (setDriveType bd s) t = setDriveType bd t := rfl

theorem setDriveType_self (bd : BlockDevice) :
    setDriveType bd bd.DeviceAttributes.DriveType = bd := rfl

/-- The inner loop changes nothing when no link matches the virtual drive. -/
theorem foldl_matchStep_of_no_match (vdItem : VdInfo) (byIds : List String)
    (h : ∀ l ∈ byIds, Base l ≠ vdItem.WWN) (st : BlockDevice × List Event) :
    byIds.foldl (matchStep vdItem) st = st := by
  induction byIds generalizing st with
  | nil => rfl
  | cons l ls ih =>
    have hl : (Base l == vdItem.WWN) = false := by
      simpa using h l (List.mem_cons_self _ _)
    simp only [List.foldl, matchStep, hl, Bool.false_eq_true, if_false]
    exact ih (fun x hx => h x (List.mem_cons_of_mem _ hx)) st

/-- The inner loop only writes the media type of the virtual drive, if anything. -/
theorem foldl_matchStep_fst (vdItem : VdInfo) (byIds : List String)
    (st : BlockDevice × List Event) :
    (byIds.foldl (matchStep vdItem) st).1 = st.1 ∨
      (byIds.foldl (matchStep vdItem) st).1 = setDriveType st.1 vdItem.DriverType := by
  induction byIds generalizing st with
  | nil => exact Or.inl rfl
  | cons l ls ih =>
    simp only [List.foldl]
    by_cases hl : (Base l == vdItem.WWN) = true
    · have hstep : (matchStep vdItem st l).1 = setDriveType st.1 vdItem.DriverType := by
        simp [matchStep, hl]
      rcases ih (matchStep vdItem st l) with h | h
      · exact Or.inr (h.trans hstep)
      · exact Or.inr (by rw [h, hstep, setDriveType_setDriveType])
    · have hstep : matchStep vdItem st l = st := by simp [matchStep, hl]
      rw [hstep]
      exact ih st

/-- The inner loop writes the media type of a virtual drive that some link matches. -/
theorem foldl_matchStep_of_match (vdItem : VdInfo) (byIds : List String)
    (h : ∃ l ∈ byIds, Base l = vdItem.WWN) (st : BlockDevice × List Event) :
    (byIds.foldl (matchStep vdItem) st).1 = setDriveType st.1 vdItem.DriverType := by
  induction byIds generalizing st with
  | nil => simp at h
  | cons l ls ih =>
    simp only [List.foldl]
    by_cases hl : (Base l == vdItem.WWN) = true
    · have hstep : (matchStep vdItem st l).1 = setDriveType st.1 vdItem.DriverType := by
        simp [matchStep, hl]
      rcases foldl_matchStep_fst vdItem ls (matchStep vdItem st l) with h' | h'
      · exact h'.trans hstep
      · rw [h', hstep, setDriveType_setDriveType]
    · have hstep : matchStep vdItem st l = st := by simp [matchStep, hl]
      rw [hstep]
      obtain ⟨x, hx, hbase⟩ := h
      rcases List.mem_cons.1 hx with rfl | hx'
      · exact absurd (by simpa using hbase) hl
      · exact ih ⟨x, hx', hbase⟩ st

theorem matchAll_append (vds₁ vds₂ : List VdInfo) (byIds : List String)
    (st : BlockDevice × List Event) :
    matchAll (vds₁ ++ vds₂) byIds st = matchAll vds₂ byIds (matchAll vds₁ byIds st) := by
  simp [matchAll, List.foldl_append]

theorem matchAll_cons (vdItem : VdInfo) (vds : List VdInfo) (byIds : List String)
    (st : BlockDevice × List Event) :
    matchAll (vdItem :: vds) byIds st = matchAll vds byIds (byIds.foldl (matchStep vdItem) st) :=
  rfl

/-- The matching loops change nothing when no link matches any virtual drive. -/
theorem matchAll_of_no_match (vds : List VdInfo) (byIds : List String)
    (h : ∀ vd ∈ vds, ∀ l ∈ byIds, Base l ≠ vd.WWN) (st : BlockDevice × List Event) :
    matchAll vds byIds st = st := by
  induction vds generalizing st with
  | nil => rfl
  | cons vd vds ih =>
    rw [matchAll_cons, foldl_matchStep_of_no_match vd byIds (h vd (List.mem_cons_self _ _))]
    exact ih (fun v hv => h v (List.mem_cons_of_mem _ hv)) st

/-- The matching loops change the record in the field `DriveType` only. -/
theorem matchAll_fst (vds : List VdInfo) (byIds : List String) (st : BlockDevice × List Event) :
    ∃ t, (matchAll vds byIds st).1 = setDriveType st.1 t := by
  induction vds generalizing st with
  | nil => exact ⟨st.1.DeviceAttributes.DriveType, rfl⟩
  | cons vd vds ih =>
    rw [matchAll_cons]
    obtain ⟨t, ht⟩ := ih (byIds.foldl (matchStep vd) st)
    rcases foldl_matchStep_fst vd byIds st with h | h
    · exact ⟨t, by rw [ht, h]⟩
    · exact ⟨t, by rw [ht, h, setDriveType_setDriveType]⟩

/-- The matching loops leave the media type of the last virtual drive that a link
matches. -/
theorem matchAll_last_match (pre post : List VdInfo) (v : VdInfo) (byIds : List String)
    (hv : ∃ l ∈ byIds, Base l = v.WWN) (hpost : ∀ u ∈ post, ∀ l ∈ byIds, Base l ≠ u.WWN)
    (st : BlockDevice × List Event) :
    (matchAll (pre ++ v :: post) byIds st).1 = setDriveType st.1 v.DriverType := by
  rw [matchAll_append, matchAll_cons, matchAll_of_no_match post byIds hpost,
    foldl_matchStep_of_match v byIds hv]
  obtain ⟨t, ht⟩ := matchAll_fst pre byIds st
  rw [ht, setDriveType_setDriveType]

/-- The result of `FillBlockDeviceDetails` when the extraction succeeds. -/
theorem FillBlockDeviceDetails_of_ok (BY_ID_LINK : String) (env : Env) (bd : BlockDevice)
    (vds : List VdInfo) (hne : getByIds BY_ID_LINK bd ≠ [])
    (hvds : (getVdInfos env).2 = .ok (vds, none)) :
    (FillBlockDeviceDetails BY_ID_LINK env bd).blockDevice =
      (matchAll vds (getByIds BY_ID_LINK bd) (bd, (getVdInfos env).1)).1 := by
  have hlen : ((getByIds BY_ID_LINK bd).length == 0) = false := by
    cases hg : getByIds BY_ID_LINK bd with
    | nil => exact absurd hg hne
    | cons a l => rfl
  simp only [FillBlockDeviceDetails, hlen, Bool.false_eq_true, if_false, hvds]

/-- After a successful extraction the device has the media type of the last virtual drive
that a by-id link matches. -/
theorem FillBlockDeviceDetails_of_last_match (BY_ID_LINK : String) (env : Env)
    (bd : BlockDevice) (pre post : List VdInfo) (v : VdInfo)
    (hvds : (getVdInfos env).2 = .ok (pre ++ v :: post, none))
    (hv : ∃ l ∈ getByIds BY_ID_LINK bd, Base l = v.WWN)
    (hpost : ∀ u ∈ post, ∀ l ∈ getByIds BY_ID_LINK bd, Base l ≠ u.WWN) :
    (FillBlockDeviceDetails BY_ID_LINK env bd).blockDevice.DeviceAttributes.DriveType =
      v.DriverType := by
  have hne : getByIds BY_ID_LINK bd ≠ [] := by
    obtain ⟨l, hl, _⟩ := hv
    exact List.ne_nil_of_mem hl
  rw [FillBlockDeviceDetails_of_ok BY_ID_LINK env bd _ hne hvds,
    matchAll_last_match pre post v _ hv hpost]
  rfl

/-- The record is untouched unless the extraction succeeds. -/
theorem FillBlockDeviceDetails_of_not_ok (BY_ID_LINK : String) (env : Env) (bd : BlockDevice)
    (h : ∀ vds, (getVdInfos env).2 ≠ .ok (vds, none)) :
    (FillBlockDeviceDetails BY_ID_LINK env bd).blockDevice = bd := by
  unfold FillBlockDeviceDetails
  simp only
  split
  · rfl
  · split
    · rfl
    · rfl
    · rename_i vds hvds
      exact absurd hvds (h vds)

theorem FillBlockDeviceDetails_of_nil (BY_ID_LINK : String) (env : Env) (bd : BlockDevice)
    (h : getByIds BY_ID_LINK bd = []) :
    FillBlockDeviceDetails BY_ID_LINK env bd =
      ⟨bd, [Event.klogErrorf "%s byids not found" [bd.Identifier.DevPath]], none⟩ := by
  simp [FillBlockDeviceDetails, h]

/-! ## C4: a device without by-id links -/

/-- A device all of whose by-id records are without links has no by-id links. -/
theorem getByIds_go_eq_nil (BY_ID_LINK : String) (links : List DevLink)
    (h : ∀ item ∈ links, item.Kind = BY_ID_LINK → item.Links = []) :
    getByIds.go BY_ID_LINK links = [] := by
  induction links with
  | nil => rfl
  | cons item rest ih =>
    unfold getByIds.go
    by_cases hk : item.Kind = BY_ID_LINK
    · simp [hk, h item (List.mem_cons_self _ _) hk]
    · have hb : (item.Kind == BY_ID_LINK) = false := by simpa using hk
      simp only [hb, Bool.false_eq_true, if_false]
      exact ih (fun x hx => h x (List.mem_cons_of_mem _ hx))

/-- C4: for every block device whose by-id links (what `getByIds` returns, in particular
when no by-id record has a link) are empty, `FillBlockDeviceDetails` runs no command, ends
without a panic, leaves the device record as it was, and its outcome is the same
whatever the tool would have printed. -/
theorem FillBlockDeviceDetails_skips_without_byIds (BY_ID_LINK : String) (env : Env)
    (bd : BlockDevice)
    (h : getByIds BY_ID_LINK bd = [] ∨
      ∀ item ∈ bd.DevLinks, item.Kind = BY_ID_LINK → item.Links = []) :
    (FillBlockDeviceDetails BY_ID_LINK env bd).blockDevice = bd ∧
    (FillBlockDeviceDetails BY_ID_LINK env bd).blockDevice.DeviceAttributes.DriveType =
      bd.DeviceAttributes.DriveType ∧
    (∀ name a, Event.exec name a ∉ (FillBlockDeviceDetails BY_ID_LINK env bd).events) ∧
    (FillBlockDeviceDetails BY_ID_LINK env bd).panicked = none ∧
    ∀ env', FillBlockDeviceDetails BY_ID_LINK env' bd = FillBlockDeviceDetails BY_ID_LINK env bd := by
  have hnil : getByIds BY_ID_LINK bd = [] := by
    rcases h with h | h
    · exact h
    · exact getByIds_go_eq_nil BY_ID_LINK bd.DevLinks h
  refine ⟨?_, ?_, ?_, ?_, ?_⟩
  · rw [FillBlockDeviceDetails_of_nil BY_ID_LINK env bd hnil]
  · rw [FillBlockDeviceDetails_of_nil BY_ID_LINK env bd hnil]
  · intro name a
    rw [FillBlockDeviceDetails_of_nil BY_ID_LINK env bd hnil]
    simp
  · rw [FillBlockDeviceDetails_of_nil BY_ID_LINK env bd hnil]
  · intro env'
    rw [FillBlockDeviceDetails_of_nil BY_ID_LINK env bd hnil,
      FillBlockDeviceDetails_of_nil BY_ID_LINK env' bd hnil]

/-- Witness of C4: a device without a by-id record, with a tool that would answer. -/
theorem FillBlockDeviceDetails_skips_without_byIds_witness :
    (getByIds "by-id" sdcDevice = [] ∨
      ∀ item ∈ sdcDevice.DevLinks, item.Kind = "by-id" → item.Links = []) ∧
    (FillBlockDeviceDetails "by-id" (envOf ssdOutput) sdcDevice).blockDevice = sdcDevice ∧
    (∀ name a,
      Event.exec name a ∉ (FillBlockDeviceDetails "by-id" (envOf ssdOutput) sdcDevice).events) :=
  ⟨Or.inl (by decide),
    (FillBlockDeviceDetails_skips_without_byIds "by-id" (envOf ssdOutput) sdcDevice
      (Or.inl (by decide))).1,
    (FillBlockDeviceDetails_skips_without_byIds "by-id" (envOf ssdOutput) sdcDevice
      (Or.inl (by decide))).2.2.1⟩

/-! ## C5 and C6: which media type is written -/

/-- C6 (as amended): for every block device and every successfully extracted list of
virtual drives (identifiers not assumed unique), if some by-id link matches a virtual
drive, then after `FillBlockDeviceDetails` the `DriveType` of the device is the media type
of the last matching virtual drive in the order of the list: every match writes the
attribute, and the matching does not stop at the first one. -/
theorem FillBlockDeviceDetails_last_match (BY_ID_LINK : String) (env : Env) (bd : BlockDevice)
    (pre post : List VdInfo) (v : VdInfo)
    (hvds : (getVdInfos env).2 = .ok (pre ++ v :: post, none))
    (hv : ∃ l ∈ getByIds BY_ID_LINK bd, Base l = v.WWN)
    (hpost : ∀ u ∈ post, ∀ l ∈ getByIds BY_ID_LINK bd, Base l ≠ u.WWN) :
    (FillBlockDeviceDetails BY_ID_LINK env bd).blockDevice.DeviceAttributes.DriveType =
      v.DriverType :=
  FillBlockDeviceDetails_of_last_match BY_ID_LINK env bd pre post v hvds hv hpost

/-- Witness of C6: two virtual drives with the same identifier; the second one wins. -/
theorem FillBlockDeviceDetails_last_match_witness :
    (FillBlockDeviceDetails "by-id" (envOf twinOutput) sdaDevice).blockDevice.DeviceAttributes.DriveType
      = "SSD" :=
  FillBlockDeviceDetails_last_match "by-id" (envOf twinOutput) sdaDevice
    [⟨"wwn-0xABC123", "HDD"⟩] [] ⟨"wwn-0xABC123", "SSD"⟩ (by decide)
    ⟨"/dev/disk/by-id/wwn-0xABC123", by decide, by decide⟩ (by simp)

/-- Counterexample to C6 as stated: two virtual drives carry the identifier that a by-id
link of the device ends in, the first on an HDD and the second on an SSD; both matches
write the attribute, and the device ends with `SSD`, the media type of the second. -/
theorem FillBlockDeviceDetails_first_match_counterexample :
    (getVdInfos (envOf twinOutput)).2 =
      .ok ([⟨"wwn-0xABC123", "HDD"⟩, ⟨"wwn-0xABC123", "SSD"⟩], none) ∧
    (∃ l ∈ getByIds "by-id" sdaDevice, Base l = "wwn-0xABC123") ∧
    (FillBlockDeviceDetails "by-id" (envOf twinOutput) sdaDevice).events =
      [Event.exec megaCliPath arg,
        Event.klogInfof "set %s driver type %s" ["/dev/sda", "HDD"],
        Event.klogInfof "set %s driver type %s" ["/dev/sda", "SSD"]] ∧
    (FillBlockDeviceDetails "by-id" (envOf twinOutput) sdaDevice).blockDevice.DeviceAttributes.DriveType
      ≠ "HDD" := by
  decide

/-- C5 (as amended): for every block device and every successfully extracted list of
virtual drives with pairwise distinct identifiers, if some link of the first by-id record
of the device (the links `getByIds` returns) has a final path component equal to the WWN
of a virtual drive `v` of the list, and no link of that record ends in the WWN of another
virtual drive of the list, then after `FillBlockDeviceDetails` the `DriveType` of the device
is the media type of `v`. -/
theorem FillBlockDeviceDetails_sets_driveType (BY_ID_LINK : String) (env : Env)
    (bd : BlockDevice) (vds : List VdInfo) (v : VdInfo) (l : String)
    (hvds : (getVdInfos env).2 = .ok (vds, none))
    (hdistinct : vds.Pairwise (fun a b => a.WWN ≠ b.WWN))
    (hv : v ∈ vds) (hl : l ∈ getByIds BY_ID_LINK bd) (hbase : Base l = v.WWN)
    (honly : ∀ l' ∈ getByIds BY_ID_LINK bd, ∀ u ∈ vds, Base l' = u.WWN → Base l' = v.WWN) :
    (FillBlockDeviceDetails BY_ID_LINK env bd).blockDevice.DeviceAttributes.DriveType =
      v.DriverType := by
  obtain ⟨pre, post, rfl⟩ := List.append_of_mem hv
  apply FillBlockDeviceDetails_of_last_match BY_ID_LINK env bd pre post v hvds ⟨l, hl, hbase⟩
  intro u hu l' hl' heq
  have hvu : v.WWN ≠ u.WWN := by
    have h1 := (List.pairwise_append.1 hdistinct).2.1
    exact List.rel_of_pairwise_cons h1 hu
  have := honly l' hl' u (List.mem_append_right _ (List.mem_cons_of_mem _ hu)) heq
  exact hvu (this.symm.trans heq)

/-- Witness of C5: a by-id link that ends in `wwn-0xABC123` and the virtual drive
`wwn-0xABC123` on an SSD give the drive type `SSD`. -/
theorem FillBlockDeviceDetails_sets_driveType_witness :
    (FillBlockDeviceDetails "by-id" (envOf ssdOutput) sdaDevice).blockDevice.DeviceAttributes.DriveType
      = "SSD" :=
  FillBlockDeviceDetails_sets_driveType "by-id" (envOf ssdOutput) sdaDevice
    [⟨"wwn-0xABC123", "SSD"⟩] ⟨"wwn-0xABC123", "SSD"⟩ "/dev/disk/by-id/wwn-0xABC123"
    (by decide) (by simp) (by simp) (by decide) (by decide) (by decide)

/-- Counterexample to C5 as stated: the device has two link records tagged by-id, and the
link that ends in `wwn-0xABC123` is in the second; the virtual drive `wwn-0xABC123` is on
an SSD, yet the drive type of the device stays as it was. -/
theorem FillBlockDeviceDetails_sets_driveType_counterexample :
    (getVdInfos (envOf ssdOutput)).2 = .ok ([⟨"wwn-0xABC123", "SSD"⟩], none) ∧
    (∃ item ∈ sdbDevice.DevLinks, item.Kind = "by-id" ∧
      ∃ l ∈ item.Links, Base l = "wwn-0xABC123") ∧
    (FillBlockDeviceDetails "by-id" (envOf ssdOutput) sdbDevice).blockDevice = sdbDevice ∧
    (FillBlockDeviceDetails "by-id" (envOf ssdOutput) sdbDevice).blockDevice.DeviceAttributes.DriveType
      ≠ "SSD" := by
  decide

/-! ## C7: what `FillBlockDeviceDetails` may change -/

/-- Whether a scan ends without a returned error does not depend on the records
collected before. -/
theorem scanVds_ok_of_acc (rs : List (String × JSON)) (is : List Nat) :
    ∀ (acc acc' out : List VdInfo), scanVds rs is acc = .ok (out, none) →
      ∃ out', scanVds rs is acc' = .ok (out', none) := by
  induction is with
  | nil => intro acc acc' out _; exact ⟨acc', rfl⟩
  | cons i is ih =>
    intro acc acc' out h
    cases hb : scanBody rs i with
    | brk => exact ⟨acc', by simp only [scanVds, hb]⟩
    | ret err => simp [scanVds, hb] at h
    | panic msg => simp [scanVds, hb] at h
    | next r =>
      simp only [scanVds, hb] at h ⊢
      exact ih _ _ _ h

/-- A scan that reaches an index whose values fail to decode returns the error. -/
theorem scanVds_ret_at (rs : List (String × JSON)) (i : Nat) (err : GoError)
    (hi : i ≤ maxNum) (hprev : ∀ j < i, ∃ r, scanBody rs j = .next r)
    (hret : scanBody rs i = .ret err) (acc : List VdInfo) :
    ∃ out, scanVds rs (List.range (maxNum + 1)) acc = .ok (out, some err) := by
  let f : Nat → VdInfo := fun j =>
    match scanBody rs j with
    | .next r => r
    | _ => ⟨"", ""⟩
  have hf : ∀ j < i, scanBody rs j = .next (f j) := by
    intro j hj
    obtain ⟨r, hr⟩ := hprev j hj
    simp only [f, hr]
  refine ⟨acc ++ (List.range i).map f, ?_⟩
  rw [range_split i (maxNum + 1) (by omega),
    scanVds_next_prefix rs f _ _ (fun j hj => hf j (List.mem_range.1 hj))]
  simp only [scanVds, hret]

/-- The extraction returns the error of a decoding failure at an index it reaches. -/
theorem scanControllers_ret_at (pre post : List MegaCtl) (ctl : MegaCtl) (i : Nat)
    (err : GoError)
    (hpre : ∀ c ∈ pre, c.CommandStatus.Status = "Success" ∧
      ∃ out, scanVds c.ResponseStatus (List.range (maxNum + 1)) [] = .ok (out, none))
    (hs : ctl.CommandStatus.Status = "Success") (hi : i ≤ maxNum)
    (hprev : ∀ j < i, ∃ r, scanBody ctl.ResponseStatus j = .next r)
    (hret : scanBody ctl.ResponseStatus i = .ret err) :
    ∀ acc, ∃ out, scanControllers (pre ++ ctl :: post) acc = .ok (out, some err) := by
  induction pre with
  | nil =>
    intro acc
    obtain ⟨out, hout⟩ := scanVds_ret_at ctl.ResponseStatus i err hi hprev hret acc
    exact ⟨out, by
      simp only [List.nil_append, scanControllers, hs, bne_self_eq_false, Bool.false_eq_true,
        if_false, hout]⟩
  | cons c cs ih =>
    intro acc
    obtain ⟨hcs, out0, hout0⟩ := hpre c (List.mem_cons_self _ _)
    obtain ⟨out1, hout1⟩ := scanVds_ok_of_acc _ _ [] acc out0 hout0
    obtain ⟨out, hout⟩ := ih (fun x hx => hpre x (List.mem_cons_of_mem _ hx)) out1
    exact ⟨out, by
      rw [List.cons_append, scanControllers_cons_ok c _ acc out1 hcs hout1]
      exact hout⟩

/-- A scan of the controllers that ends without error has met `Success` only. -/
theorem scanControllers_ok_success (ctls : List MegaCtl) :
    ∀ (acc out : List VdInfo), scanControllers ctls acc = .ok (out, none) →
      ∀ ctl ∈ ctls, ctl.CommandStatus.Status = "Success" := by
  induction ctls with
  | nil => intro acc out _ ctl hctl; simp at hctl
  | cons c rest ih =>
    intro acc out h ctl hctl
    unfold scanControllers at h
    split at h
    · simp at h
    · rename_i hs
      have hs' : c.CommandStatus.Status = "Success" := by simpa using hs
      split at h
      · cases h
      · simp at h
      · rcases List.mem_cons.1 hctl with rfl | hmem
        · exact hs'
        · exact ih _ _ h ctl hmem

/-- C7: for every block device and every tool outcome, `FillBlockDeviceDetails` changes
the device record in the field `DeviceAttributes.DriveType` only, and only when the
extraction succeeded and the final path component of some by-id link equals the WWN of some
extracted virtual drive. The record is as before whenever the tool execution fails, the
top-level JSON is malformed, a controller does not report `Success`, a value at an index
the scan reaches fails to decode (the loop body returns the error), the extraction
returns any error or panics, or no link matches any virtual drive. -/
theorem FillBlockDeviceDetails_frame (BY_ID_LINK : String) (env : Env) (bd : BlockDevice) :
    (∃ t, (FillBlockDeviceDetails BY_ID_LINK env bd).blockDevice = setDriveType bd t) ∧
    ((FillBlockDeviceDetails BY_ID_LINK env bd).blockDevice ≠ bd →
      ∃ vds, (getVdInfos env).2 = .ok (vds, none) ∧
        ∃ vd ∈ vds, ∃ l ∈ getByIds BY_ID_LINK bd, Base l = vd.WWN) ∧
    ((∃ err, env.Output megaCliPath arg = .error err) →
      (FillBlockDeviceDetails BY_ID_LINK env bd).blockDevice = bd) ∧
    (∀ buf, env.Output megaCliPath arg = .ok buf → (∃ err, env.Unmarshal buf = .error err) →
      (FillBlockDeviceDetails BY_ID_LINK env bd).blockDevice = bd) ∧
    (∀ buf output, env.Output megaCliPath arg = .ok buf → env.Unmarshal buf = .ok output →
      (∃ ctl ∈ output.Controllers, ctl.CommandStatus.Status ≠ "Success") →
      (FillBlockDeviceDetails BY_ID_LINK env bd).blockDevice = bd) ∧
    (∀ buf output ctl i err, env.Output megaCliPath arg = .ok buf →
      env.Unmarshal buf = .ok output → ScanReaches output ctl i →
      scanBody ctl.ResponseStatus i = .ret err →
      (FillBlockDeviceDetails BY_ID_LINK env bd).blockDevice = bd) ∧
    ((∀ vds, (getVdInfos env).2 ≠ .ok (vds, none)) →
      (FillBlockDeviceDetails BY_ID_LINK env bd).blockDevice = bd) ∧
    (∀ vds, (getVdInfos env).2 = .ok (vds, none) →
      (∀ vd ∈ vds, ∀ l ∈ getByIds BY_ID_LINK bd, Base l ≠ vd.WWN) →
      (FillBlockDeviceDetails BY_ID_LINK env bd).blockDevice = bd) := by
  have hnomatch : ∀ vds, (getVdInfos env).2 = .ok (vds, none) →
      (∀ vd ∈ vds, ∀ l ∈ getByIds BY_ID_LINK bd, Base l ≠ vd.WWN) →
      (FillBlockDeviceDetails BY_ID_LINK env bd).blockDevice = bd := by
    intro vds hvds hno
    by_cases hnil : getByIds BY_ID_LINK bd = []
    · rw [FillBlockDeviceDetails_of_nil BY_ID_LINK env bd hnil]
    · rw [FillBlockDeviceDetails_of_ok BY_ID_LINK env bd vds hnil hvds,
        matchAll_of_no_match vds _ hno]
  have hnotok := FillBlockDeviceDetails_of_not_ok BY_ID_LINK env bd
  refine ⟨?_, ?_, ?_, ?_, ?_, ?_, hnotok, hnomatch⟩
  · by_cases hok : ∃ vds, (getVdInfos env).2 = .ok (vds, none)
    · obtain ⟨vds, hvds⟩ := hok
      by_cases hnil : getByIds BY_ID_LINK bd = []
      · exact ⟨bd.DeviceAttributes.DriveType, by
          rw [FillBlockDeviceDetails_of_nil BY_ID_LINK env bd hnil]; rfl⟩
      · rw [FillBlockDeviceDetails_of_ok BY_ID_LINK env bd vds hnil hvds]
        exact matchAll_fst vds _ _
    · exact ⟨bd.DeviceAttributes.DriveType, by
        rw [hnotok (fun vds hvds => hok ⟨vds, hvds⟩)]; rfl⟩
  · intro hchanged
    by_contra hcon
    apply hchanged
    by_cases hok : ∃ vds, (getVdInfos env).2 = .ok (vds, none)
    · obtain ⟨vds, hvds⟩ := hok
      apply hnomatch vds hvds
      intro vd hvd l hl hbase
      exact hcon ⟨vds, hvds, vd, hvd, l, hl, hbase⟩
    · exact hnotok (fun vds hvds => hok ⟨vds, hvds⟩)
  · rintro ⟨err, herr⟩
    apply hnotok
    intro vds
    simp [getVdInfos, herr]
  · rintro buf hbuf ⟨err, herr⟩
    apply hnotok
    intro vds
    simp [getVdInfos, hbuf, herr]
  · rintro buf output hbuf hout ⟨ctl, hctl, hstatus⟩
    apply hnotok
    intro vds hvds
    rw [getVdInfos_decoded env buf output hbuf hout] at hvds
    exact hstatus (scanControllers_ok_success _ _ _ hvds ctl hctl)
  · rintro buf output ctl i err hbuf hout ⟨pre, post, hsplit, hpre, hs, hi, hprev⟩ hret
    apply hnotok
    intro vds hvds
    rw [getVdInfos_decoded env buf output hbuf hout, hsplit] at hvds
    obtain ⟨out, hout'⟩ := scanControllers_ret_at pre post ctl i err hpre hs hi hprev hret []
    rw [hout'] at hvds
    simp at hvds

/-- Witness of C7: the tool cannot be run, and the record stays as it was. -/
theorem FillBlockDeviceDetails_frame_witness :
    (∃ err, brokenEnv.Output megaCliPath arg = .error err) ∧
    (FillBlockDeviceDetails "by-id" brokenEnv sdaDevice).blockDevice = sdaDevice :=
  ⟨⟨_, rfl⟩, (FillBlockDeviceDetails_frame "by-id" brokenEnv sdaDevice).2.2.1 ⟨_, rfl⟩⟩

/-! ## C10: the links `getByIds` returns -/

theorem getByIds_go_find (BY_ID_LINK : String) (links : List DevLink) :
    getByIds.go BY_ID_LINK links =
      ((links.find? (fun item => item.Kind == BY_ID_LINK)).map DevLink.Links).getD [] := by
  induction links with
  | nil => rfl
  | cons item rest ih =>
    unfold getByIds.go
    by_cases hk : (item.Kind == BY_ID_LINK) = true
    · simp [hk, List.find?]
    · simp only [Bool.not_eq_true] at hk
      simp only [hk, Bool.false_eq_true, if_false, List.find?, ih]

theorem getByIds_go_split (BY_ID_LINK : String) (pre post : List DevLink) (item : DevLink)
    (hpre : ∀ x ∈ pre, x.Kind ≠ BY_ID_LINK) (hitem : item.Kind = BY_ID_LINK) :
    getByIds.go BY_ID_LINK (pre ++ item :: post) = item.Links := by
  induction pre with
  | nil => simp [getByIds.go, hitem]
  | cons x xs ih =>
    have hx : (x.Kind == BY_ID_LINK) = false := by
      simpa using hpre x (List.mem_cons_self _ _)
    simp only [List.cons_append, getByIds.go, hx, Bool.false_eq_true, if_false]
    exact ih (fun y hy => hpre y (List.mem_cons_of_mem _ hy))

theorem matchStep_withDevLinks (vdItem : VdInfo) (links : List DevLink)
    (st : BlockDevice × List Event) (byId : String) :
    matchStep vdItem (withDevLinks st.1 links, st.2) byId =
      (withDevLinks (matchStep vdItem st byId).1 links, (matchStep vdItem st byId).2) := by
  unfold matchStep
  split <;> rfl

theorem foldl_matchStep_withDevLinks (vdItem : VdInfo) (links : List DevLink)
    (byIds : List String) (st : BlockDevice × List Event) :
    byIds.foldl (matchStep vdItem) (withDevLinks st.1 links, st.2) =
      (withDevLinks (byIds.foldl (matchStep vdItem) st).1 links,
        (byIds.foldl (matchStep vdItem) st).2) := by
  induction byIds generalizing st with
  | nil => rfl
  | cons l ls ih =>
    simp only [List.foldl]
    rw [matchStep_withDevLinks, ih]

theorem matchAll_withDevLinks (vds : List VdInfo) (links : List DevLink)
    (byIds : List String) (st : BlockDevice × List Event) :
    matchAll vds byIds (withDevLinks st.1 links, st.2) =
      (withDevLinks (matchAll vds byIds st).1 links, (matchAll vds byIds st).2) := by
  induction vds generalizing st with
  | nil => rfl
  | cons vd vds ih =>
    rw [matchAll_cons, matchAll_cons, foldl_matchStep_withDevLinks, ih]

/-- The outcome of `FillBlockDeviceDetails` depends on the link records only through the
links `getByIds` returns. -/
theorem FillBlockDeviceDetails_withDevLinks (BY_ID_LINK : String) (env : Env) (bd : BlockDevice)
    (links : List DevLink)
    (h : getByIds BY_ID_LINK (withDevLinks bd links) = getByIds BY_ID_LINK bd) :
    FillBlockDeviceDetails BY_ID_LINK env (withDevLinks bd links) =
      ⟨withDevLinks (FillBlockDeviceDetails BY_ID_LINK env bd).blockDevice links,
        (FillBlockDeviceDetails BY_ID_LINK env bd).events,
        (FillBlockDeviceDetails BY_ID_LINK env bd).panicked⟩ := by
  unfold FillBlockDeviceDetails
  simp only [h]
  split
  · rfl
  · split
    · rfl
    · rfl
    · have := matchAll_withDevLinks ‹List VdInfo› links (getByIds BY_ID_LINK bd)
        (bd, (getVdInfos env).1)
      simp only at this
      simp only [this]

/-- C10: for every block device, `getByIds` returns the link list of the first link
record of kind by-id, in the order of `DevLinks`, and the empty list when no record has
that kind; the records after the first by-id record have no effect on what
`FillBlockDeviceDetails` does, neither on the skip of a device without links nor on the
comparison with the virtual drives. -/
theorem getByIds_first_record (BY_ID_LINK : String) (bd : BlockDevice) :
    getByIds BY_ID_LINK bd =
      ((bd.DevLinks.find? (fun item => item.Kind == BY_ID_LINK)).map DevLink.Links).getD [] ∧
    ((∀ x ∈ bd.DevLinks, x.Kind ≠ BY_ID_LINK) → getByIds BY_ID_LINK bd = []) ∧
    (∀ pre item post, bd.DevLinks = pre ++ item :: post →
      (∀ x ∈ pre, x.Kind ≠ BY_ID_LINK) → item.Kind = BY_ID_LINK →
      getByIds BY_ID_LINK bd = item.Links ∧
      ∀ env post',
        FillBlockDeviceDetails BY_ID_LINK env (withDevLinks bd (pre ++ item :: post')) =
          ⟨withDevLinks (FillBlockDeviceDetails BY_ID_LINK env bd).blockDevice
              (pre ++ item :: post'),
            (FillBlockDeviceDetails BY_ID_LINK env bd).events,
            (FillBlockDeviceDetails BY_ID_LINK env bd).panicked⟩) := by
  refine ⟨getByIds_go_find BY_ID_LINK bd.DevLinks, ?_, ?_⟩
  · intro h
    exact getByIds_go_eq_nil BY_ID_LINK bd.DevLinks (fun item hitem hk => absurd hk (h item hitem))
  · intro pre item post hlinks hpre hitem
    have hget : getByIds BY_ID_LINK bd = item.Links := by
      unfold getByIds
      rw [hlinks]
      exact getByIds_go_split BY_ID_LINK pre post item hpre hitem
    refine ⟨hget, fun env post' => ?_⟩
    apply FillBlockDeviceDetails_withDevLinks
    rw [hget]
    exact getByIds_go_split BY_ID_LINK pre post' item hpre hitem

/-- Witness of C10: of the two by-id records of the device, the links of the first are
returned. -/
theorem getByIds_first_record_witness :
    getByIds "by-id" sdbDevice = ["/dev/disk/by-id/scsi-36ABC123"] :=
  ((getByIds_first_record "by-id" sdbDevice).2.2 []
    ⟨"by-id", ["/dev/disk/by-id/scsi-36ABC123"]⟩
    [⟨"by-id", ["/dev/disk/by-id/wwn-0xABC123"]⟩] rfl (by simp) rfl).1

/-! ## C9: the access `pds[0]` -/

theorem scanBody_panic (rs : List (String × JSON)) (i : Nat) (msg : String)
    (h : scanBody rs i = .panic msg) :
    ∃ vdArray pdArray, rs.lookup (vdKey i) = some vdArray ∧
      rs.lookup (pdKey i) = some pdArray ∧ convertPd pdArray = .ok [] := by
  unfold scanBody at h
  split at h
  · cases h
  · rename_i vdArray hvd
    split at h
    · cases h
    · rename_i pdArray hpd
      split at h
      · cases h
      · rename_i pds hpds
        split at h
        · cases h
        · split at h
          · exact ⟨vdArray, pdArray, hvd, hpd, hpds⟩
          · cases h

/-- A scan does not panic when no index it reaches panics. -/
theorem scanVds_no_panic (rs : List (String × JSON)) (is : List Nat) :
    ∀ (acc : List VdInfo),
      (∀ pre i post, is = pre ++ i :: post → (∀ j ∈ pre, ∃ r, scanBody rs j = .next r) →
        ∀ msg, scanBody rs i ≠ .panic msg) →
      ∃ out e, scanVds rs is acc = .ok (out, e) := by
  induction is with
  | nil => intro acc _; exact ⟨acc, none, rfl⟩
  | cons i is ih =>
    intro acc h
    unfold scanVds
    split
    · exact ⟨acc, none, rfl⟩
    · exact ⟨acc, _, rfl⟩
    · rename_i msg hb
      exact absurd hb (h [] i is rfl (by simp) msg)
    · rename_i r hb
      apply ih
      intro pre k post hsplit hpre msg
      refine h (i :: pre) k post (by rw [hsplit]; rfl) ?_ msg
      intro j hj
      rcases List.mem_cons.1 hj with rfl | hj'
      · exact ⟨r, hb⟩
      · exact hpre j hj'

theorem range_eq_append_cons (n i : Nat) (pre post : List Nat)
    (h : List.range n = pre ++ i :: post) : pre = List.range i ∧ i < n := by
  have hpre : pre ++ [i] <+: List.range n := ⟨post, by rw [h]; simp⟩
  obtain ⟨hr, hlen⟩ := prefix_range _ _ hpre
  rw [List.length_append, List.length_singleton, List.range_succ] at hr
  have hlen' : pre.length + 1 ≤ n := by simpa using hlen
  have h1 := List.append_inj hr (by simp)
  have hi : i = pre.length := by simpa using h1.2
  refine ⟨?_, by omega⟩
  rw [hi]
  exact h1.1

theorem scanControllers_no_panic (output : MegaOutput)
    (h : ∀ ctl i pdArray, ScanReaches output ctl i →
      (ctl.ResponseStatus.lookup (vdKey i)).isSome = true →
      ctl.ResponseStatus.lookup (pdKey i) = some pdArray → convertPd pdArray ≠ .ok []) :
    ∀ (ctls visited : List MegaCtl) (acc : List VdInfo),
      output.Controllers = visited ++ ctls →
      (∀ c ∈ visited, c.CommandStatus.Status = "Success" ∧
        ∃ out, scanVds c.ResponseStatus (List.range (maxNum + 1)) [] = .ok (out, none)) →
      ∃ out e, scanControllers ctls acc = .ok (out, e) := by
  intro ctls
  induction ctls with
  | nil => intro visited acc _ _; exact ⟨acc, none, rfl⟩
  | cons ctl rest ih =>
    intro visited acc hsplit hvisited
    unfold scanControllers
    split
    · exact ⟨acc, _, rfl⟩
    · rename_i hs
      have hs' : ctl.CommandStatus.Status = "Success" := by simpa using hs
      obtain ⟨out, e, hscan⟩ := scanVds_no_panic ctl.ResponseStatus (List.range (maxNum + 1)) acc
        (by
          intro pre i post hrange hpre msg hpanic
          obtain ⟨hpre_eq, hi⟩ := range_eq_append_cons _ i pre post hrange
          obtain ⟨vdArray, pdArray, hvd, hpd, hempty⟩ := scanBody_panic _ i msg hpanic
          refine h ctl i pdArray ⟨visited, rest, hsplit, hvisited, hs', by omega, ?_⟩
            (by simp [hvd]) hpd hempty
          intro j hj
          exact hpre j (by rw [hpre_eq]; exact List.mem_range.2 hj))
      rw [hscan]
      cases e with
      | some err => exact ⟨out, some err, rfl⟩
      | none =>
        simp only
        apply ih (visited ++ [ctl]) out (by rw [hsplit]; simp)
        intro c hc
        rcases List.mem_append.1 hc with hc | hc
        · exact hvisited c hc
        · have hc' : c = ctl := by simpa using hc
          subst hc'
          exact ⟨hs', scanVds_ok_of_acc _ _ acc [] out hscan⟩

/-- C9: for every decoded tool response in which, at every index the scan reaches, the
value of `PDs for VD <i>` does not decode to an empty list, the access `pds[0]` is in
bounds: `getVdInfos` does not panic, it returns a slice and possibly an error. The
precondition is needed: an empty array and `null` both decode without error to an empty
list, and a response with such a value makes `getVdInfos` panic. -/
theorem getVdInfos_index_in_bounds :
    (∀ (env : Env) (buf : String) (output : MegaOutput),
      env.Output megaCliPath arg = .ok buf → env.Unmarshal buf = .ok output →
      (∀ ctl i pdArray, ScanReaches output ctl i →
        (ctl.ResponseStatus.lookup (vdKey i)).isSome = true →
        ctl.ResponseStatus.lookup (pdKey i) = some pdArray → convertPd pdArray ≠ .ok []) →
      ∃ vdInfos err, (getVdInfos env).2 = .ok (vdInfos, err)) ∧
    convertPd (JSON.arr []) = .ok [] ∧ convertPd JSON.null = .ok [] ∧
    (getVdInfos (envOf emptyPdsOutput)).2 = .error indexOutOfRange ∧
    (getVdInfos (envOf nullPdsOutput)).2 = .error indexOutOfRange := by
  refine ⟨?_, rfl, rfl, by decide, by decide⟩
  intro env buf output hrun hdec h
  rw [getVdInfos_decoded env buf output hrun hdec]
  exact scanControllers_no_panic output h output.Controllers [] [] rfl (by simp)

/-- Witness of C9: in the response of two controllers every list of physical drives is
non-empty, and `getVdInfos` returns. -/
theorem getVdInfos_index_in_bounds_witness :
    ∃ vdInfos err, (getVdInfos (envOf sampleOutput)).2 = .ok (vdInfos, err) :=
  getVdInfos_index_in_bounds.1 (envOf sampleOutput) "raw" sampleOutput (by decide)
    (by simp [envOf])
    (by
      intro ctl i pdArray hreach _ hpd
      obtain ⟨pre, post, hsplit, _⟩ := hreach
      have hmem : ctl ∈ sampleOutput.Controllers := by rw [hsplit]; simp
      have hall : ∀ c ∈ sampleOutput.Controllers, ∀ kv ∈ c.ResponseStatus,
          convertPd kv.2 ≠ .ok [] := by decide
      exact hall ctl hmem _ (lookup_mem _ hpd))
end MegaRaidProbe
